import Mathlib

/-!
Verification of the event synchronization and reconciliation engine of the
pfcam backend (FastAPI application under backend/app).  The definitions below
are a shallow embedding of the Python source:

* `normalize_filename`, `find_matching_event_by_filename` — backend/app/api/v1/endpoints/events.py, lines 24-48
* `sync_events` (`runSync` here)                          — same file, lines 414-640
* `list_events`                                           — same file, lines 50-163
* `delete_event_local`                                    — same file, lines 768-789
* `get_event_sync_status`                                 — same file, lines 825-868
* `NotificationService.send_event_notification`           — backend/app/services/notification_service.py, lines 254-290
* `WebSocketManager`                                      — same file, lines 39-95

Python strings are modelled as Lean `String`, with `str.lower` as a
character-wise `Char.toLower` map and `str.endswith` as a suffix test on the
underlying character list.  Nullable columns are `Option` values; Python
truthiness of a nullable string (`None` and `""` are falsy) and of a nullable
integer (`None` and `0` are falsy) is made explicit.  Database rows are lists
of records in insertion order (matching autoincrement ids); SQLAlchemy's
autoflush makes rows added earlier in a request visible to later selects in
the same request, which the sequential state passing below reproduces.
-/

/-- Python truthiness of a nullable string field: `None` and `""` are falsy. -/
def truthyS : Option String → Bool
  | none => false
  | some s => s ≠ ""

/-- Python truthiness of a nullable integer field: `None` and `0` are falsy. -/
def truthyI : Option Int → Bool
  | none => false
  | some n => n ≠ 0

/-- Python `str.lower()`, character-wise. -/
def lowerStr (s : String) : String :=
  ⟨s.data.map Char.toLower⟩

/-- Python `a.endswith(b)` as a suffix test on the character lists. -/
def endsWithStr (s suf : String) : Bool :=
  suf.data.isSuffixOf s.data

/-- Known video-container extensions stripped by the normalizer
(events.py line 30). -/
def extensions : List String := [".mp4", ".avi", ".mov", ".mkv", ".wmv", ".flv"]

/-- Loop body of `normalize_filename` (events.py lines 32-35): return the base
name with the first matching extension stripped, or unchanged if none match. -/
def stripFirstExt : List String → String → String
  | [], base => base
  | ext :: rest, base =>
    if endsWithStr base ext then ⟨base.data.take (base.data.length - ext.data.length)⟩
    else stripFirstExt rest base

/-- Embedding of `normalize_filename` (events.py lines 24-35): lowercase, then
strip the first matching video extension. -/
def normalize_filename (filename : String) : String :=
  stripFirstExt extensions (lowerStr filename)

/-- Camera row (backend/app/models/camera.py); only the fields the embedded
endpoints read. -/
structure Camera where
  id : Nat
  name : String
deriving Repr, DecidableEq

/-- Camera-reported record (`CameraEvent`, backend/app/services/camera_client.py
lines 12-21).  The `triggeredAt` ISO timestamp string is modelled by its parse
result under `datetime.fromisoformat`: `none` when parsing would raise
`ValueError` (events.py lines 471-477). -/
structure CameraEvent where
  age : Int
  dir : String
  eventName : Option String
  fileName : String
  playbackTime : Int
  thmbExt : String
  triggeredAt : Option Int
  vidExt : String
deriving Repr, DecidableEq

/-- Event row as read and written by the endpoints (backend/app/models/event.py,
plus the `is_played`, `is_orphaned` and tag attributes the endpoints and
schemas use, both defaulting to false).  `user_id`, `is_processed` and the
server-managed timestamp columns are never read or written by the embedded
operations and are omitted.  `tags` holds tag ids. -/
structure Event where
  id : Nat
  camera_id : Nat
  filename : String
  event_name : Option String
  triggered_at : Int
  file_size : Option Int
  file_path : Option String
  thumbnail_path : Option String
  video_extension : Option String
  thumbnail_extension : Option String
  playback_time : Option Int
  is_downloaded : Bool
  is_deleted : Bool
  is_played : Bool
  is_orphaned : Bool
  event_metadata : Option (Int × String)
  tags : List Nat
deriving Repr, DecidableEq

/-- Drop-directory file as seen by the FTP sync section: its name and the
result of `os.path.getsize` (`none` when that call raises `OSError`,
events.py lines 567-570). -/
structure FtpFile where
  fname : String
  size : Option Int
deriving Repr, DecidableEq

/-- Embedding of `find_matching_event_by_filename` (events.py lines 37-48),
returning the position of the first Event whose normalized filename matches
the normalized target (the Python function returns that event object itself,
which its callers mutate in place). -/
def find_matching_event_by_filename (db_events : List Event) (target : String) : Option Nat :=
  db_events.findIdx? (fun e => normalize_filename e.filename == normalize_filename target)

/-- Helper applying an in-place mutation of the row at position `i`. -/
def updateAt (st : List Event) (i : Nat) (f : Event → Event) : List Event :=
  match st.get? i with
  | some e => st.set i (f e)
  | none => st

/-- Backfill of descriptive fields on an existing matching Event from a
camera-reported record (events.py lines 500-508): each field is written only
when it is falsy on the stored row and truthy on the record. -/
def backfillEvent (e : Event) (r : CameraEvent) : Event :=
  { e with
    event_name := if !truthyS e.event_name && truthyS r.eventName then r.eventName else e.event_name
    video_extension := if !truthyS e.video_extension && r.vidExt != "" then some r.vidExt else e.video_extension
    thumbnail_extension := if !truthyS e.thumbnail_extension && r.thmbExt != "" then some r.thmbExt else e.thumbnail_extension
    playback_time := if !truthyI e.playback_time && r.playbackTime != 0 then some r.playbackTime else e.playback_time }

/-- Event row created from a camera-reported record (events.py lines 480-492).
The surrogate id is assigned by the database and never read by the sync pass;
it is modelled as 0. -/
def mkEventFromCamera (cam : Camera) (r : CameraEvent) (t : Int) : Event :=
  { id := 0
    camera_id := cam.id
    filename := r.fileName
    event_name := r.eventName
    triggered_at := t
    file_size := none
    file_path := none
    thumbnail_path := none
    video_extension := some r.vidExt
    thumbnail_extension := some r.thmbExt
    playback_time := some r.playbackTime
    is_downloaded := false
    is_deleted := false
    is_played := false
    is_orphaned := false
    event_metadata := some (r.age, r.dir)
    tags := [] }

/-- Processing of one camera-reported record (events.py lines 464-508): skip on
an exact raw-filename match among this camera's rows, otherwise backfill the
first Event matching by normalized filename, otherwise — when the timestamp
parses — collect a new Event.  The store `st` is the full event table as
selected at the start of the camera block (lines 455-460); rows created for
this camera are accumulated separately and only added after the loop
(`db.add_all`, line 512), so the comparison snapshots never see them, and the
snapshots coincide with the current store because in-loop backfills touch
neither `filename` nor `camera_id`. -/
def processCameraRecord (cam : Camera) (acc : List Event × List Event) (r : CameraEvent) :
    List Event × List Event :=
  let st := acc.1
  let news := acc.2
  if ((st.filter (fun e => e.camera_id == cam.id)).map Event.filename).contains r.fileName then acc
  else
    match find_matching_event_by_filename st r.fileName with
    | some i => (updateAt st i (fun e => backfillEvent e r), news)
    | none =>
      match r.triggeredAt with
      | none => acc
      | some t => (st, news ++ [mkEventFromCamera cam r t])

/-- Processing of one camera inside the sync loop (events.py lines 447-531).
An adapter failure is caught and the loop continues with the next camera
(lines 529-531); nothing records the failed camera in the returned value.
The accumulator carries the store and the pair
`(total_new_events, total_camera_events)`. -/
def processCamera (acc : List Event × Nat × Nat)
    (cf : Camera × Except Unit (List CameraEvent)) : List Event × Nat × Nat :=
  match cf.2 with
  | .error _ => acc
  | .ok camera_events =>
    let res := camera_events.foldl (processCameraRecord cf.1) (acc.1, [])
    (res.1 ++ res.2, acc.2.1 + res.2.length, acc.2.2 + camera_events.length)

/-- Filter applied to drop-directory entries (events.py line 549): only files
with a `.mp4`, `.avi` or `.mov` suffix, case-insensitively. -/
def ftpVideoFile (fname : String) : Bool :=
  endsWithStr (lowerStr fname) ".mp4" || endsWithStr (lowerStr fname) ".avi" ||
    endsWithStr (lowerStr fname) ".mov"

/-- Update of an existing Event from a drop-directory file (events.py lines
562-573): attach the local path, set `is_downloaded`, and record the file size
when `os.path.getsize` succeeds.  No other field — in particular not
`is_orphaned` — is touched. -/
def ftpUpdateEvent (e : Event) (path : String) (size : Option Int) : Event :=
  { e with
    file_path := some path
    is_downloaded := true
    file_size := match size with | some n => some n | none => e.file_size }

/-- Camera attribution for a drop-directory file with no matching Event
(events.py lines 576-596): the first camera whose name occurs in the filename
case-insensitively, else the first camera in the table, else the literal
fallback id 1. -/
def attributeCamera (cameras : List Camera) (fname : String) : Nat :=
  match cameras.find? (fun c => decide ((lowerStr c.name).data <:+: (lowerStr fname).data)) with
  | some c => c.id
  | none =>
    match cameras.head? with
    | some c => c.id
    | none => 1

/-- Event row created from a drop-directory file (events.py lines 592-599).
Note that neither `file_size` nor `video_extension` is set here. -/
def mkEventFromFtp (fname path : String) (cameraId : Nat) (now : Int) : Event :=
  { id := 0
    camera_id := cameraId
    filename := fname
    event_name := some "Motion Event"
    triggered_at := now
    file_size := none
    file_path := some path
    thumbnail_path := none
    video_extension := none
    thumbnail_extension := none
    playback_time := none
    is_downloaded := true
    is_deleted := false
    is_played := false
    is_orphaned := false
    event_metadata := none
    tags := [] }

/-- Counters kept by the FTP section (events.py lines 539-541); they are only
logged, never returned. -/
structure FtpStats where
  processed : Nat
  updated : Nat
  created : Nat
deriving Repr, DecidableEq

/-- Processing of one drop-directory file (events.py lines 548-621).  The event
table is re-selected for every file (lines 555-557), so each file is compared
against all rows including those created for earlier files in the same pass. -/
def processFtpFile (ftpDir : String) (cameras : List Camera) (now : Int)
    (acc : List Event × FtpStats) (f : FtpFile) : List Event × FtpStats :=
  let st := acc.1
  let stats := acc.2
  if !ftpVideoFile f.fname then acc
  else
    let path := ftpDir ++ "/" ++ f.fname
    match find_matching_event_by_filename st f.fname with
    | some i =>
      (updateAt st i (fun e => ftpUpdateEvent e path f.size),
       { stats with processed := stats.processed + 1, updated := stats.updated + 1 })
    | none =>
      (st ++ [mkEventFromFtp f.fname path (attributeCamera cameras f.fname) now],
       { stats with processed := stats.processed + 1, created := stats.created + 1 })

/-- JSON scalar used when rendering the returned summary object. -/
inductive JVal where
  | s (v : String)
  | n (v : Nat)
deriving Repr, DecidableEq

/-- Summary returned by `sync_events` (events.py lines 629-634). -/
structure SyncSummary where
  message : String
  new_events : Nat
  total_events : Nat
  cameras_processed : Nat
deriving Repr, DecidableEq

/-- Rendering of the summary as the JSON object literally returned at
events.py lines 629-634: exactly these four keys, in this order. -/
def SyncSummary.toPairs (s : SyncSummary) : List (String × JVal) :=
  [("message", JVal.s s.message), ("new_events", JVal.n s.new_events),
   ("total_events", JVal.n s.total_events),
   ("cameras_processed", JVal.n s.cameras_processed)]

/-- Inputs of one `sync_events` pass with `camera_id = None`: every camera row
together with the outcome of its adapter call (`CameraClient.get_events`;
`Except.error` models a raised exception, caught at events.py lines 529-531),
the drop-directory listing (`none` when the directory does not exist, line
543), the directory path, and the wall-clock time used for rows created from
drop-directory files (line 598). -/
structure SyncInput where
  cameras : List (Camera × Except Unit (List CameraEvent))
  ftp : Option (List FtpFile)
  ftpDir : String
  now : Int

/-- Embedding of one full `sync_events` pass over all cameras (events.py lines
414-640, `camera_id = None` branch): the camera section runs first, then the
FTP section, and the summary is returned.  Notification dispatch (lines
516-527 and 605-620) does not touch the event table and is modelled separately
by `send_event_notification`.  SQLAlchemy autoflush makes rows added for one
camera visible to the selects of the next, which the sequential state passing
reproduces. -/
def runSync (inp : SyncInput) (store : List Event) :
    Except String (List Event × SyncSummary) :=
  if inp.cameras.isEmpty then .error "No cameras found in database"
  else
    let camPhase := inp.cameras.foldl processCamera (store, 0, 0)
    let afterFtp :=
      match inp.ftp with
      | none => (camPhase.1, (⟨0, 0, 0⟩ : FtpStats))
      | some files =>
        files.foldl (processFtpFile inp.ftpDir (inp.cameras.map Prod.fst) inp.now)
          (camPhase.1, (⟨0, 0, 0⟩ : FtpStats))
    .ok (afterFtp.1,
      { message := "Events synced from camera and FTP directory"
        new_events := camPhase.2.1
        total_events := camPhase.2.2
        cameras_processed := inp.cameras.length })

/-- Python truthiness of a nullable integer id: `None` and `0` are falsy
(so `camera_id=0` disables the `list_events` camera filter, line 73). -/
def truthyN : Option Nat → Bool
  | none => false
  | some n => n ≠ 0

/-- Query-parameter filters of `list_events` (events.py lines 50-64).
`tag_ids` models the parsed comma-separated id list of line 91; the empty list
disables the tag filter (line 92). -/
structure ListFilters where
  camera_id : Option Nat
  event_name : Option String
  start_date : Option Int
  end_date : Option Int
  tag_ids : List Nat
  is_played : Option Bool
  limit : Nat
  offset : Nat
  sort_by : String
  sort_order : String
  show_orphaned : Bool
deriving Repr, DecidableEq

/-- SQL `ILIKE` with the pattern `%pat%` as used for the event-name filter
(events.py lines 77 and 133): case-insensitive substring containment on a
nullable column; `NULL` never matches.  Wildcard characters inside `pat`
itself are not modelled. -/
def ilikeContains (col : Option String) (pat : String) : Bool :=
  match col with
  | none => false
  | some s => decide ((lowerStr pat).data <:+: (lowerStr s).data)

/-- Filter conditions applied by BOTH queries of `list_events` (events.py
lines 72-100 for the listing query and 130-151 for the count query): camera,
name, date range, played flag, and the orphan filter.  The tag join is
modelled separately by `tagJoinRows`; the `is_deleted` condition and the
camera join belong only to the listing query and are likewise kept apart. -/
def listFilterCond (f : ListFilters) (e : Event) : Bool :=
  (!truthyN f.camera_id || e.camera_id == f.camera_id.getD 0) &&
  (!truthyS f.event_name || ilikeContains e.event_name (f.event_name.getD "")) &&
  (match f.start_date with | none => true | some d => decide (d ≤ e.triggered_at)) &&
  (match f.end_date with | none => true | some d => decide (e.triggered_at ≤ d)) &&
  (match f.is_played with | none => true | some b => e.is_played == b) &&
  (f.show_orphaned || !e.is_orphaned)

/-- Join against the event-tag association table (events.py lines 90-95 and
143-147): with an active tag filter each event row is joined to every one of
its matching tags, so an event with several matching tags produces several
rows; without one, the rows pass through unchanged. -/
def tagJoinRows (tag_ids : List Nat) (l : List Event) : List Event :=
  if tag_ids.isEmpty then l
  else l.flatMap (fun e => (e.tags.filter (fun t => tag_ids.contains t)).map (fun _ => e))

/-- Insertion step of the ORDER BY model. -/
def insertSorted (le : Event → Event → Bool) (e : Event) : List Event → List Event
  | [] => [e]
  | x :: xs => if le e x then e :: x :: xs else x :: insertSorted le e xs

/-- ORDER BY model: insertion sort by the given comparison. -/
def sortByLe (le : Event → Event → Bool) (l : List Event) : List Event :=
  l.foldr (insertSorted le) []

/-- Sorting applied by `list_events` (events.py lines 102-112): by
`triggered_at` or `filename`, ascending or descending; any other `sort_by`
value leaves the rows in table order (no ORDER BY is added). -/
def sortEvents (sort_by sort_order : String) (l : List Event) : List Event :=
  if sort_by == "triggered_at" then
    if sort_order == "desc" then sortByLe (fun a b => decide (b.triggered_at ≤ a.triggered_at)) l
    else sortByLe (fun a b => decide (a.triggered_at ≤ b.triggered_at)) l
  else if sort_by == "filename" then
    if sort_order == "desc" then sortByLe (fun a b => decide (b.filename ≤ a.filename)) l
    else sortByLe (fun a b => decide (a.filename ≤ b.filename)) l
  else l

/-- Full unpaginated row list of the `list_events` listing query (events.py
lines 69-115 before `offset`/`limit`): inner join with the camera table,
`is_deleted = false`, the shared filters, the tag join, then the sort. -/
def listAllRows (f : ListFilters) (cameras : List Camera) (store : List Event) : List Event :=
  sortEvents f.sort_by f.sort_order
    (tagJoinRows f.tag_ids
      (store.filter (fun e =>
        cameras.any (fun c => c.id == e.camera_id) && !e.is_deleted && listFilterCond f e)))

/-- Embedding of `list_events` (events.py lines 50-163): the paginated row
list and the `total` computed by the count query of lines 128-154, which
re-applies the shared filters and the tag join but neither the camera join
nor the `is_deleted` condition. -/
def list_events (f : ListFilters) (cameras : List Camera) (store : List Event) :
    List Event × Nat :=
  (((listAllRows f cameras store).drop f.offset).take f.limit,
   (tagJoinRows f.tag_ids (store.filter (listFilterCond f))).length)

/-- Lookup of the unique row with a given id (`scalar_one_or_none` over a
primary-key select), returning its position and value. -/
def findById : List Event → Nat → Option (Nat × Event)
  | [], _ => none
  | e :: rest, eid =>
    if e.id == eid then some (0, e)
    else (findById rest eid).map (fun p => (p.1 + 1, p.2))

/-- Embedding of `delete_event_local` (events.py lines 768-789) over the event
table and the set of existing file-system paths: with a truthy `file_path`
naming an existing file, the file is removed and the row loses its path and
its downloaded flag; otherwise nothing changes and the call still succeeds.
`Except.error` models the 404 response for an unknown id. -/
def delete_event_local (store : List Event) (fs : List String) (event_id : Nat) :
    Except String (List Event × List String × String) :=
  match findById store event_id with
  | none => Except.error "Event not found"
  | some (i, e) =>
    match e.file_path with
    | some p =>
      if p ≠ "" ∧ fs.contains p then
        Except.ok (store.set i { e with file_path := none, is_downloaded := false },
          fs.erase p, "Event file deleted from local storage")
      else Except.ok (store, fs, "No local file to delete")
    | none => Except.ok (store, fs, "No local file to delete")

/-- Embedding of `get_event_sync_status` (events.py lines 825-868): compute
`on_server` from the stored path and the file system, `on_camera` from a live
adapter call for the event's camera (false when the camera row is missing or
the call raises), and `in_ftp` from the drop directory; then persist
`is_downloaded := on_server` and `is_orphaned := not on_camera and not
on_server` on the row and return the three computed flags. -/
def get_event_sync_status (store : List Event) (fs : List String)
    (cameras : List Camera) (fetch : Nat → Except Unit (List CameraEvent))
    (ftpDirExists : Bool) (ftpDir : String) (event_id : Nat) :
    Except String (List Event × Bool × Bool × Bool) :=
  match findById store event_id with
  | none => Except.error "Event not found"
  | some (i, e) =>
    let on_server := truthyS e.file_path && fs.contains (e.file_path.getD "")
    let on_camera :=
      match cameras.find? (fun c => c.id == e.camera_id) with
      | none => false
      | some c =>
        match fetch c.id with
        | Except.ok evs => evs.any (fun r => r.fileName == e.filename)
        | Except.error _ => false
    let in_ftp := ftpDirExists && fs.contains (ftpDir ++ "/" ++ e.filename)
    Except.ok
      (store.set i { e with is_downloaded := on_server,
                            is_orphaned := !on_camera && !on_server },
       on_server, on_camera, in_ftp)

/-- User row (backend/app/models/user.py); only the fields the notification
path reads. -/
structure User where
  id : Nat
  email : String
  email_notifications : Bool
  event_notifications : Bool
  camera_status_notifications : Bool
  is_active : Bool
deriving Repr, DecidableEq

/-- Embedding of `NotificationService.send_event_notification`
(notification_service.py lines 254-290), projected onto its delivery
attempts: for each user of the given list, in order, one push attempt
(`websocket_manager.send_to_user`, line 281), then — exactly when the user's
`email_notifications` preference is set (line 284) — one email attempt.  The
per-user `try` of lines 278-290 isolates failures; `renderFails` marks users
for whom an exception is raised while building or sending their email (the
realistic raise site, after the push call), which skips that user's email
attempt and nothing else.  Returns the user ids of push attempts and of
email attempts. -/
def send_event_notification (users : List User) (renderFails : Nat → Bool) :
    List Nat × List Nat :=
  users.foldl
    (fun acc u =>
      (acc.1 ++ [u.id],
       if u.email_notifications && !renderFails u.id then acc.2 ++ [u.id] else acc.2))
    ([], [])

/-- Selection of notification recipients inside the sync pass (events.py
lines 518-520 and 612-614): all active users, with no condition on their
notification preferences. -/
def syncNotificationRecipients (users : List User) : List User :=
  users.filter (fun u => u.is_active)

/-- State of `WebSocketManager.active_connections` (notification_service.py
line 43): a dictionary from user id to that user's set of session queues,
modelled as an association list in insertion order with queues named by
ids. -/
abbrev WsState := List (Nat × List Nat)

/-- Embedding of `WebSocketManager.connect` (notification_service.py lines
46-55): create the user's entry when absent, then add the (fresh) queue. -/
def wsConnect (st : WsState) (u q : Nat) : WsState :=
  match st.lookup u with
  | some qs =>
    st.map (fun p => if p.1 == u then (u, if qs.contains q then qs else qs ++ [q]) else p)
  | none => st ++ [(u, [q])]

/-- Embedding of `WebSocketManager.disconnect` (notification_service.py lines
57-64): discard the queue and delete the user's entry when its set becomes
empty; a no-op for an unknown user. -/
def wsDisconnect (st : WsState) (u q : Nat) : WsState :=
  match st.lookup u with
  | none => st
  | some qs =>
    let qs2 := qs.erase q
    if qs2.isEmpty then st.filter (fun p => p.1 != u)
    else st.map (fun p => if p.1 == u then (u, qs2) else p)

/-- Embedding of `WebSocketManager.send_to_user` (notification_service.py
lines 66-88): return immediately for a user with no registered connections,
otherwise put the message on every queue of a copy of the user's set, and on
a put failure (`fails` lists the failing queues) disconnect that queue and
continue.  Returns the new state and the queues that received the message. -/
def wsSendToUser (st : WsState) (u : Nat) (fails : List Nat) : WsState × List Nat :=
  match st.lookup u with
  | none => (st, [])
  | some qs =>
    qs.foldl
      (fun acc q =>
        if fails.contains q then (wsDisconnect acc.1 u q, acc.2)
        else (acc.1, acc.2 ++ [q]))
      (st, [])

/-- One operation against the WebSocket manager. -/
inductive WsOp where
  | connect (u q : Nat)
  | disconnect (u q : Nat)
  | send (u : Nat) (fails : List Nat)
deriving Repr, DecidableEq

/-- Effect of one operation on the session map. -/
def wsStep (st : WsState) (op : WsOp) : WsState :=
  match op with
  | WsOp.connect u q => wsConnect st u q
  | WsOp.disconnect u q => wsDisconnect st u q
  | WsOp.send u fails => (wsSendToUser st u fails).1

/-- Effect of a sequence of operations on the session map. -/
def wsRun (st : WsState) (ops : List WsOp) : WsState :=
  ops.foldl wsStep st

/-- Session-map invariant: every registered user id maps to a non-empty set
of queues. -/
abbrev wsInv (st : WsState) : Prop := ∀ p ∈ st, p.2 ≠ []

/-- Default-valued Event row used to build the concrete stores of the
theorems below. -/
def event0 : Event :=
  { id := 0, camera_id := 1, filename := "", event_name := none, triggered_at := 0,
    file_size := none, file_path := none, thumbnail_path := none,
    video_extension := none, thumbnail_extension := none, playback_time := none,
    is_downloaded := false, is_deleted := false, is_played := false,
    is_orphaned := false, event_metadata := none, tags := [] }

/-- Default-valued camera-reported record used in concrete scenarios. -/
def rec0 : CameraEvent :=
  { age := 0, dir := "d", eventName := none, fileName := "", playbackTime := 0,
    thmbExt := "", triggeredAt := some 0, vidExt := "" }

/-- Default-valued user row used in concrete scenarios. -/
def user0 : User :=
  { id := 1, email := "u1@example.com", email_notifications := true,
    event_notifications := true, camera_status_notifications := true,
    is_active := true }

/-- Default filter set of `list_events` (the FastAPI defaults of events.py
lines 52-62). -/
def filters0 : ListFilters :=
  { camera_id := none, event_name := none, start_date := none, end_date := none,
    tag_ids := [], is_played := none, limit := 50, offset := 0,
    sort_by := "triggered_at", sort_order := "desc", show_orphaned := false }

/-- Normalized filenames of the non-deleted rows of a store. -/
def dedupKeys (store : List Event) : List String :=
  (store.filter (fun e => !e.is_deleted)).map (fun e => normalize_filename e.filename)

/-- Dedup invariant of the spec (§3): at most one non-deleted Event per
normalized filename, system-wide. -/
abbrev dedupInvariant (store : List Event) : Prop := (dedupKeys store).Nodup

/-- Pairwise distinctness of the normalized filenames of one camera-reported
batch. -/
abbrev batchKeysDistinct (recs : List CameraEvent) : Prop :=
  (recs.map (fun r => normalize_filename r.fileName)).Nodup

/-- Per-camera hypothesis of the amended dedup claim: a successfully fetched
batch carries pairwise-distinct normalized filenames (nothing is required of
a failed fetch). -/
def camBatchOk (fetch : Except Unit (List CameraEvent)) : Prop :=
  match fetch with
  | Except.ok recs => batchKeysDistinct recs
  | Except.error _ => True

instance instDecCamBatchOk (fetch : Except Unit (List CameraEvent)) : Decidable (camBatchOk fetch) :=
  match fetch with
  | Except.ok recs => inferInstanceAs (Decidable (batchKeysDistinct recs))
  | Except.error _ => inferInstanceAs (Decidable True)

/-- Number of count-query rows one event contributes under the tag join. -/
def wTag (tag_ids : List Nat) (e : Event) : Nat :=
  if tag_ids.isEmpty then 1 else (e.tags.filter (fun t => tag_ids.contains t)).length

/-- Condition under which an event contributes at least one row to the
`list_events` count query: the shared filters hold and, when the tag filter
is active, at least one of its tags matches. -/
def countsTowardTotal (f : ListFilters) (e : Event) : Bool :=
  listFilterCond f e && decide (1 ≤ wTag f.tag_ids e)

/-- Concrete cameras used in the scenario theorems. -/
def camA : Camera := ⟨1, "camA"⟩

/-- Second concrete camera used in the scenario theorems. -/
def camB : Camera := ⟨2, "camB"⟩

/-- Camera-reported record named `clip01` (camera API names carry no
extension). -/
def recClip01 : CameraEvent :=
  { rec0 with
    fileName := "clip01"
    eventName := some "EV"
    triggeredAt := some 100
    vidExt := ".mp4"
    thmbExt := ".jpg"
    playbackTime := 7 }

/-- Sync input with one camera reporting `clip01` and the drop directory
holding `clip01.mp4`. -/
def inpClip : SyncInput :=
  ⟨[(camA, Except.ok [recClip01])], some [⟨"clip01.mp4", some 55⟩], "/data/ftpdata", 999⟩

/-- Expected merged row of the `inpClip` scenario: created from the camera
record, then enriched by the drop-directory file. -/
def eventClipMerged : Event :=
  { mkEventFromCamera camA recClip01 100 with
    file_path := some "/data/ftpdata/clip01.mp4"
    is_downloaded := true
    file_size := some 55 }

/-- Camera-reported record of camera B in the partial-failure scenario. -/
def recB01 : CameraEvent :=
  { rec0 with
    fileName := "b01"
    eventName := some "B"
    triggeredAt := some 50
    vidExt := ".mp4" }

/-- Sync input in which camera A's adapter call raises and camera B's
succeeds. -/
def inpPartialFail : SyncInput :=
  ⟨[(camA, Except.error ()), (camB, Except.ok [recB01])], none, "/data/ftpdata", 999⟩

/-- Two records of one batch whose normalized filenames coincide. -/
def recDupA : CameraEvent := { rec0 with fileName := "clip01", triggeredAt := some 10 }

/-- Second record of the duplicate-key batch. -/
def recDupB : CameraEvent := { rec0 with fileName := "clip01.mp4", triggeredAt := some 11 }

/-- Sync input whose single camera reports two records with the same
normalized filename in one batch. -/
def inpDup : SyncInput :=
  ⟨[(camA, Except.ok [recDupA, recDupB])], none, "/data/ftpdata", 0⟩

/-- Soft-deleted row whose normalized filename is `x`. -/
def deletedX : Event := { event0 with id := 9, filename := "x.mp4", is_deleted := true }

/-- Camera record whose normalized filename is `x`. -/
def recX : CameraEvent := { rec0 with fileName := "x", triggeredAt := some 5 }

/-- Sync input reporting `x` against a store holding only the soft-deleted
`x.mp4`. -/
def inpX : SyncInput := ⟨[(camA, Except.ok [recX])], none, "/data/ftpdata", 0⟩

/-- Orphaned row (neither presence flag set) named `orph`. -/
def orphEvent : Event := { event0 with id := 7, filename := "orph", is_orphaned := true }

/-- Sync input whose drop directory holds `orph.mp4` while the camera reports
nothing. -/
def inpOrph : SyncInput :=
  ⟨[(camA, Except.ok [])], some [⟨"orph.mp4", some 5⟩], "/data/ftpdata", 0⟩

/-- Sync input with an empty camera report and one drop-directory file; the
first pass creates a row from the file without recording its size. -/
def inpFtpOnly : SyncInput :=
  ⟨[(camA, Except.ok [])], some [⟨"drop01.mp4", some 42⟩], "/data/ftpdata", 999⟩

/-- Camera record whose timestamp does not parse. -/
def recBadTs : CameraEvent :=
  { rec0 with fileName := "drop02", vidExt := ".mp4", triggeredAt := none }

/-- Sync input pairing the unparseable camera record with a matching
drop-directory file. -/
def inpBadTs : SyncInput :=
  ⟨[(camA, Except.ok [recBadTs])], some [⟨"drop02.mp4", none⟩], "/data/ftpdata", 999⟩

/-- Projection forgetting the recorded file size. -/
def clearSize (e : Event) : Event := { e with file_size := none }

/-- Exact-match test of the camera loop (events.py line 466) as a predicate
over an arbitrary store state. -/
def exactKnown (st : List Event) (camId : Nat) (fname : String) : Bool :=
  ((st.filter (fun e => e.camera_id == camId)).map Event.filename).contains fname

/-- All four backfill guards of events.py lines 500-508 are false for this
row and record, so backfilling writes nothing. -/
def backfillNoop (e : Event) (r : CameraEvent) : Prop :=
  (!truthyS e.event_name && truthyS r.eventName) = false ∧
  (!truthyS e.video_extension && (r.vidExt != "")) = false ∧
  (!truthyS e.thumbnail_extension && (r.thmbExt != "")) = false ∧
  (!truthyI e.playback_time && (r.playbackTime != 0)) = false

/-- A camera-reported record is settled in a store: either its exact raw
filename is already known for its camera, or the first normalized match
absorbs it without writing anything. -/
def recSettled (st : List Event) (cam : Camera) (r : CameraEvent) : Prop :=
  exactKnown st cam.id r.fileName = true ∨
  (∃ (i : Nat) (e : Event), find_matching_event_by_filename st r.fileName = some i ∧
    st[i]? = some e ∧ backfillNoop e r)

/-- Store evolution during a pass: rows are only appended, and every existing
position keeps its filename and camera id, and keeps the value of each
descriptive field that is already truthy. -/
def extendsTo (s s2 : List Event) : Prop :=
  s.length ≤ s2.length ∧
  ∀ (i : Nat) (e : Event), s[i]? = some e → ∃ e2, s2[i]? = some e2 ∧
    e2.filename = e.filename ∧ e2.camera_id = e.camera_id ∧
    (truthyS e.event_name = true → e2.event_name = e.event_name) ∧
    (truthyS e.video_extension = true → e2.video_extension = e.video_extension) ∧
    (truthyS e.thumbnail_extension = true → e2.thumbnail_extension = e.thumbnail_extension) ∧
    (truthyI e.playback_time = true → e2.playback_time = e.playback_time)

/-- Iterated drop-directory update of one row by a sequence of files. -/
def ustar (dir : String) (e : Event) : List FtpFile → Event
  | [] => e
  | f :: fs => ustar dir (ftpUpdateEvent e (dir ++ "/" ++ f.fname) f.size) fs

/-- Files of a listing that write to row `j` of the store `st`. -/
def ftpMatchers (st : List Event) (j : Nat) (files : List FtpFile) : List FtpFile :=
  files.filter (fun f => ftpVideoFile f.fname &&
    (find_matching_event_by_filename st f.fname == some j))

/-- Per-camera hypothesis of the amended idempotence claim: every record of a
successfully fetched batch has a parseable timestamp. -/
def camBatchParses (fetch : Except Unit (List CameraEvent)) : Prop :=
  match fetch with
  | Except.ok recs => ∀ r ∈ recs, r.triggeredAt ≠ none
  | Except.error _ => True

instance instDecCamBatchParses (fetch : Except Unit (List CameraEvent)) : Decidable (camBatchParses fetch) :=
  match fetch with
  | Except.ok recs => inferInstanceAs (Decidable (∀ r ∈ recs, r.triggeredAt ≠ none))
  | Except.error _ => inferInstanceAs (Decidable True)

/-- Helper: a candidate suffix of `l ++ e` with the same length as `e` must be
`e` itself. -/
lemma suffix_append_eq_of_length (l e f : List Char) (hlen : f.length = e.length)
    (h : f.isSuffixOf (l ++ e) = true) : f = e := by
  rw [List.isSuffixOf_iff_suffix] at h
  obtain ⟨t, ht⟩ := h
  have hl : t.length = l.length := by
    have := congrArg List.length ht
    simp only [List.length_append] at this
    omega
  exact (List.append_inj ht hl).2

/-- Helper: stripping is the identity when no extension is a suffix. -/
lemma stripFirstExt_no_match (exts : List String) (base : String)
    (h : ∀ e ∈ exts, endsWithStr base e = false) : stripFirstExt exts base = base := by
  induction exts with
  | nil => rfl
  | cons e rest ih =>
    have he := h e (by simp)
    simp only [stripFirstExt, he, Bool.false_eq_true, if_false]
    exact ih (fun x hx => h x (by simp [hx]))

/-- Helper: stripping `base ++ ext` for an extension in the list yields `base`,
provided all listed extensions have the same length as `ext`. -/
lemma stripFirstExt_append (exts : List String) (base : List Char) (ext : String)
    (hmem : ext ∈ exts) (hlen : ∀ e ∈ exts, e.data.length = ext.data.length) :
    stripFirstExt exts ⟨base ++ ext.data⟩ = ⟨base⟩ := by
  induction exts with
  | nil => cases hmem
  | cons e rest ih =>
    by_cases hsuf : endsWithStr ⟨base ++ ext.data⟩ e = true
    · have hed : e.data = ext.data :=
        suffix_append_eq_of_length base ext.data e.data (hlen e (by simp)) hsuf
      simp only [stripFirstExt, hsuf, if_true]
      congr 1
      rw [hed]
      have : (base ++ ext.data).length - ext.data.length = base.length := by
        simp [List.length_append]
      rw [this, List.take_left]
    · rcases List.mem_cons.mp hmem with h1 | h2
      · exfalso
        apply hsuf
        subst h1
        unfold endsWithStr
        rw [List.isSuffixOf_iff_suffix]
        exact List.suffix_append base ext.data
      · simp only [stripFirstExt, hsuf, Bool.false_eq_true, if_false]
        exact ih h2 (fun x hx => hlen x (by simp [hx]))

/-- C7: `normalize_filename` is a pure, total function of its input that
lowercases the filename and strips at most one known video-container extension
case-insensitively.  The concrete part shows that `"clip01.mp4"`,
`"CLIP01.MP4"`, `"Clip01.MP4"` and `"clip01"` all map to the same key (and that
only one extension is stripped); the general part shows that for every base
name not itself ending in a known extension, the extension-bearing and
extension-less spellings map to the same key. -/
theorem normalize_filename_spec :
    (normalize_filename "clip01.mp4" = normalize_filename "clip01" ∧
     normalize_filename "CLIP01.MP4" = normalize_filename "clip01" ∧
     normalize_filename "Clip01.MP4" = normalize_filename "clip01" ∧
     normalize_filename "clip01" = "clip01" ∧
     normalize_filename "a.mp4.avi" = "a.mp4") ∧
    ∀ base ext : String, ext ∈ extensions →
      (∀ e ∈ extensions, endsWithStr (lowerStr base) e = false) →
      normalize_filename (base ++ ext) = normalize_filename base := by
  constructor
  · exact ⟨by rfl, by rfl, by rfl, by rfl, by rfl⟩
  · intro base ext hmem hbase
    have hlow : lowerStr ext = ext := by
      fin_cases hmem <;> rfl
    have hlen : ∀ e ∈ extensions, e.data.length = ext.data.length := by
      have h4 : ∀ e ∈ extensions, e.data.length = 4 := by decide
      intro e he
      rw [h4 e he, h4 ext hmem]
    have happ : lowerStr (base ++ ext) = ⟨(lowerStr base).data ++ ext.data⟩ := by
      show (⟨(base ++ ext).data.map Char.toLower⟩ : String) = _
      have : (base ++ ext).data = base.data ++ ext.data := rfl
      rw [this, List.map_append]
      show (⟨(lowerStr base).data ++ (lowerStr ext).data⟩ : String) = _
      rw [hlow]
    unfold normalize_filename
    rw [happ, stripFirstExt_append extensions (lowerStr base).data ext hmem hlen,
      stripFirstExt_no_match extensions (lowerStr base) hbase]

/-- Witness for `normalize_filename_spec` at `base = "clip01"`, `ext = ".mp4"`. -/
theorem normalize_filename_spec_witness :
    normalize_filename ("clip01" ++ ".mp4") = normalize_filename "clip01" :=
  normalize_filename_spec.2 "clip01" ".mp4" (by decide) (by decide)

/-- C2: with one camera reporting `clip01` and the drop directory holding
`clip01.mp4` for the same capture, the pass ends with exactly one Event: the
camera record is processed first and creates the row, and the drop-directory
file then updates that same row instead of creating a second one.  The merged
row is locally present (`is_downloaded`, the code's realization of
`present_locally`), and it is present on camera in the sense the code gives
that notion: the live check of `get_event_sync_status` reports
`on_camera = true` for it (and `on_server = true`, hence
`is_orphaned = false`). -/
theorem sync_cross_source_dedup :
    runSync inpClip [] =
      Except.ok ([eventClipMerged],
        { message := "Events synced from camera and FTP directory"
          new_events := 1
          total_events := 1
          cameras_processed := 1 }) ∧
    eventClipMerged.is_downloaded = true ∧
    get_event_sync_status [eventClipMerged] ["/data/ftpdata/clip01.mp4"] [camA]
        (fun _ => Except.ok [recClip01]) true "/data/ftpdata" 0 =
      Except.ok ([eventClipMerged], true, true, false) := by
  refine ⟨by rfl, rfl, by rfl⟩

/-- C4 counterexample: with camera A's adapter raising and camera B's
succeeding, camera B's event is still created, but the returned summary is
the literal object of events.py lines 629-634: its keys are `message`,
`new_events`, `total_events` and `cameras_processed` — there is no `failures`
list (nor a `total_reported` field) in which A's id could appear, refuting
the claimed summary shape. -/
theorem sync_failures_missing_counterexample :
    (runSync inpPartialFail []).map (fun p => p.2.toPairs.map Prod.fst) =
      Except.ok ["message", "new_events", "total_events", "cameras_processed"] ∧
    (runSync inpPartialFail []).map (fun p => p.1.map Event.filename) =
      Except.ok ["b01"] := by
  exact ⟨by rfl, by rfl⟩

/-- C4 (amended): partial failure is isolated — the failing camera's loop
iteration leaves the accumulated state untouched, so B's events are created
exactly as if A were absent from the camera loop, and the pass returns a
summary instead of raising.  That summary, however, consists solely of
`message`, `new_events`, `total_events` (the code's name for the reported
total) and `cameras_processed` (which still counts the failed camera);
failures are only logged, never returned. -/
theorem sync_partial_failure_isolation (A B : Camera) (recs : List CameraEvent)
    (store : List Event) (ftp : Option (List FtpFile)) (dir : String) (now : Int) :
    [(A, Except.error ()), (B, Except.ok recs)].foldl processCamera (store, 0, 0) =
      processCamera (store, 0, 0) (B, Except.ok recs) ∧
    ∃ st sm,
      runSync ⟨[(A, Except.error ()), (B, Except.ok recs)], ftp, dir, now⟩ store =
        Except.ok (st, sm) ∧
      sm.cameras_processed = 2 ∧
      sm.toPairs.map Prod.fst = ["message", "new_events", "total_events", "cameras_processed"] := by
  exact ⟨rfl, ⟨_, _, rfl, rfl, rfl⟩⟩

/-- Helper: mutating a row beyond position 
zero steps over the head. -/
lemma updateAt_cons_succ (x : Event) (xs : List Event) (n : Nat) (f : Event → Event) :
    updateAt (x :: xs) (n + 1) f = x :: updateAt xs n f := by
  unfold updateAt
  cases h : xs[n]? with
  | some e => simp [List.get?_eq_getElem?, h]
  | none => simp [List.get?_eq_getElem?, h]

/-- Helper: the normalized-key list splits over append. -/
lemma dedupKeys_append (a b : List Event) :
    dedupKeys (a ++ b) = dedupKeys a ++ dedupKeys b := by
  simp [dedupKeys, List.filter_append]

/-- Helper: an in-place mutation preserving filename and deletion flag
preserves the normalized-key list. -/
lemma dedupKeys_updateAt (st : List Event) (i : Nat) (f : Event → Event)
    (hf : ∀ e, (f e).filename = e.filename ∧ (f e).is_deleted = e.is_deleted) :
    dedupKeys (updateAt st i f) = dedupKeys st := by
  induction st generalizing i with
  | nil => rfl
  | cons x xs ih =>
    cases i with
    | zero =>
      show dedupKeys (f x :: xs) = dedupKeys (x :: xs)
      simp only [dedupKeys, List.filter_cons, (hf x).2]
      cases hx : !x.is_deleted <;> simp [List.map_cons, (hf x).1]
    | succ n =>
      rw [updateAt_cons_succ]
      simp only [dedupKeys, List.filter_cons]
      cases hx : !x.is_deleted <;>
        simpa [hx] using congrArg (fun l => if !x.is_deleted then normalize_filename x.filename :: l else l) (ih n)

/-- Helper: a failed normalized-filename search means the target's key occurs
nowhere in the store, deleted rows included. -/
lemma key_not_mem_of_find_none (st : List Event) (target : String)
    (h : find_matching_event_by_filename st target = none) :
    normalize_filename target ∉ dedupKeys st := by
  unfold find_matching_event_by_filename at h
  rw [List.findIdx?_eq_none_iff] at h
  intro hmem
  unfold dedupKeys at hmem
  rcases List.mem_map.mp hmem with ⟨e, hef, hekey⟩
  have hest : e ∈ st := List.mem_of_mem_filter hef
  have := h e hest
  rw [beq_eq_false_iff_ne] at this
  exact this hekey

/-- Helper: unfolded form of one camera-record step. -/
lemma processCameraRecord_eq (cam : Camera) (st news : List Event) (r : CameraEvent) :
    processCameraRecord cam (st, news) r =
      if exactKnown st cam.id r.fileName
      then (st, news)
      else
        match find_matching_event_by_filename st r.fileName with
        | some i => (updateAt st i (fun e => backfillEvent e r), news)
        | none =>
          match r.triggeredAt with
          | none => (st, news)
          | some t => (st, news ++ [mkEventFromCamera cam r t]) := rfl

/-- Helper: a camera batch whose records carry pairwise-distinct normalized
filenames preserves the dedup invariant of the store extended with the rows
already slated for creation. -/
lemma camera_batch_dedup (cam : Camera) (recs : List CameraEvent) :
    ∀ (st news : List Event),
      dedupInvariant (st ++ news) →
      batchKeysDistinct recs →
      (∀ n ∈ news, ∀ r ∈ recs,
        normalize_filename n.filename ≠ normalize_filename r.fileName) →
      dedupInvariant ((recs.foldl (processCameraRecord cam) (st, news)).1 ++
        (recs.foldl (processCameraRecord cam) (st, news)).2) := by
  induction recs with
  | nil => intro st news hinv _ _; exact hinv
  | cons r rest ih =>
    intro st news hinv hdist hnews
    have hdist' : batchKeysDistinct rest := (List.nodup_cons.mp hdist).2
    have hkeyrest : normalize_filename r.fileName ∉
        rest.map (fun x => normalize_filename x.fileName) := (List.nodup_cons.mp hdist).1
    rw [List.foldl_cons, processCameraRecord_eq]
    by_cases hex : exactKnown st cam.id r.fileName = true
    · rw [if_pos hex]
      exact ih st news hinv hdist' (fun n hn r' hr' => hnews n hn r' (List.mem_cons_of_mem r hr'))
    · rw [if_neg (by simpa using hex)]
      cases hfind : find_matching_event_by_filename st r.fileName with
      | some i =>
        apply ih _ news _ hdist'
          (fun n hn r' hr' => hnews n hn r' (List.mem_cons_of_mem r hr'))
        unfold dedupInvariant at hinv ⊢
        rw [dedupKeys_append,
          dedupKeys_updateAt st i (fun e => backfillEvent e r) (fun e => ⟨rfl, rfl⟩),
          ← dedupKeys_append]
        exact hinv
      | none =>
        cases htime : r.triggeredAt with
        | none =>
          exact ih st news hinv hdist' (fun n hn r' hr' => hnews n hn r' (List.mem_cons_of_mem r hr'))
        | some t =>
          apply ih st (news ++ [mkEventFromCamera cam r t])
          · unfold dedupInvariant at hinv ⊢
            rw [dedupKeys_append] at hinv ⊢
            rw [dedupKeys_append]
            have hsingle : dedupKeys [mkEventFromCamera cam r t] = [normalize_filename r.fileName] := by
              simp [dedupKeys, mkEventFromCamera]
            rw [hsingle, List.nodup_append]
            have hkst := key_not_mem_of_find_none st r.fileName hfind
            have hknews : normalize_filename r.fileName ∉ dedupKeys news := by
              intro hmem
              rcases List.mem_map.mp hmem with ⟨n, hnf, hnkey⟩
              exact hnews n (List.mem_of_mem_filter hnf) r (List.mem_cons_self r rest) hnkey
            refine ⟨(List.nodup_append.mp hinv).1, ?_, ?_⟩
            · rw [List.nodup_append]
              refine ⟨(List.nodup_append.mp hinv).2.1, List.nodup_singleton _, ?_⟩
              intro a ha hb
              rw [List.mem_singleton.mp hb] at ha
              exact hknews ha
            · intro a ha hb
              rcases List.mem_append.mp hb with hb1 | hb2
              · exact (List.nodup_append.mp hinv).2.2 ha hb1
              · rw [List.mem_singleton.mp hb2] at ha
                exact hkst ha
          · exact hdist'
          · intro n hn r' hr'
            rcases List.mem_append.mp hn with hn1 | hn2
            · exact hnews n hn1 r' (List.mem_cons_of_mem r hr')
            · rw [List.mem_singleton.mp hn2]
              show normalize_filename r.fileName ≠ normalize_filename r'.fileName
              intro hkk
              exact hkeyrest (hkk ▸ List.mem_map_of_mem (fun x => normalize_filename x.fileName) hr')

/-- Helper: the whole camera section preserves the dedup invariant when every
successfully fetched batch has pairwise-distinct normalized filenames. -/
lemma camera_phase_dedup (cams : List (Camera × Except Unit (List CameraEvent))) :
    ∀ (acc : List Event × Nat × Nat),
      dedupInvariant acc.1 →
      (∀ cf ∈ cams, camBatchOk cf.2) →
      dedupInvariant (cams.foldl processCamera acc).1 := by
  induction cams with
  | nil => intro acc hinv _; exact hinv
  | cons cf rest ih =>
    intro acc hinv hok
    rw [List.foldl_cons]
    apply ih
    · cases cf with
      | mk cam fetch =>
        cases fetch with
        | error e => exact hinv
        | ok recs =>
          show dedupInvariant
            ((recs.foldl (processCameraRecord cam) (acc.1, [])).1 ++
             (recs.foldl (processCameraRecord cam) (acc.1, [])).2)
          apply camera_batch_dedup cam recs acc.1 []
          · rw [List.append_nil]; exact hinv
          · exact hok (cam, Except.ok recs) (List.mem_cons_self _ _)
          · intro n hn; cases hn
    · exact fun c hc => hok c (List.mem_cons_of_mem cf hc)

/-- Helper: the FTP section preserves the dedup invariant unconditionally,
because the store is re-read before every file. -/
lemma ftp_fold_dedup (dirStr : String) (cams : List Camera) (now : Int)
    (files : List FtpFile) :
    ∀ (acc : List Event × FtpStats),
      dedupInvariant acc.1 →
      dedupInvariant (files.foldl (processFtpFile dirStr cams now) acc).1 := by
  induction files with
  | nil => intro acc hinv; exact hinv
  | cons f rest ih =>
    intro acc hinv
    rw [List.foldl_cons]
    apply ih
    show dedupInvariant (processFtpFile dirStr cams now acc f).1
    unfold processFtpFile
    by_cases hv : ftpVideoFile f.fname = true
    · simp only [hv, Bool.not_true, Bool.false_eq_true, if_false]
      cases hfind : find_matching_event_by_filename acc.1 f.fname with
      | some i =>
        simp only [hfind]
        unfold dedupInvariant at hinv ⊢
        rw [dedupKeys_updateAt acc.1 i
          (fun e => ftpUpdateEvent e (dirStr ++ "/" ++ f.fname) f.size) (fun e => ⟨rfl, rfl⟩)]
        exact hinv
      | none =>
        simp only [hfind]
        unfold dedupInvariant at hinv ⊢
        rw [dedupKeys_append]
        have hsingle :
            dedupKeys [mkEventFromFtp f.fname (dirStr ++ "/" ++ f.fname)
              (attributeCamera cams f.fname) now] = [normalize_filename f.fname] := by
          simp [dedupKeys, mkEventFromFtp]
        rw [hsingle, List.nodup_append]
        refine ⟨hinv, List.nodup_singleton _, ?_⟩
        intro a ha hb
        rw [List.mem_singleton.mp hb] at ha
        exact key_not_mem_of_find_none acc.1 f.fname hfind ha
    · simp only [Bool.not_eq_true] at hv
      simp only [hv, Bool.not_false, if_true]
      exact hinv

/-- C3 counterexample: the pass does not preserve the at-most-one invariant.
Starting from the empty store (which satisfies it), one camera batch
reporting both `clip01` and `clip01.mp4` creates two non-deleted Events with
the same normalized filename, because every record of a batch is compared
only against the snapshot taken before the batch.  The final conjunct also
shows the comparison set is not restricted to non-deleted rows: against a
store holding only the soft-deleted `x.mp4`, the camera-reported `x` is
absorbed by that deleted row and no Event is created. -/
theorem sync_dedup_counterexample :
    dedupInvariant [] ∧
    (runSync inpDup []).map (fun p => decide (dedupInvariant p.1)) = Except.ok false ∧
    (runSync inpDup []).map (fun p => p.1.map Event.filename) =
      Except.ok ["clip01", "clip01.mp4"] ∧
    (runSync inpX [deletedX]).map (fun p => (p.1, p.2.new_events)) =
      Except.ok ([deletedX], 0) := by
  exact ⟨List.nodup_nil, by rfl, by rfl, by rfl⟩

/-- C3 (amended): the sync pass preserves the at-most-one-non-deleted-Event-
per-normalized-filename invariant provided each successfully fetched camera
batch itself carries pairwise-distinct normalized filenames (drop-directory
files need no such proviso, since the store is re-read before each file).
Discovered records are compared against all existing Events globally — but
including soft-deleted rows, not only the non-deleted ones the claim
describes. -/
theorem sync_dedup_preserved (inp : SyncInput) (store : List Event)
    (hstore : dedupInvariant store)
    (hbatch : ∀ cf ∈ inp.cameras, camBatchOk cf.2) :
    ∀ st sm, runSync inp store = Except.ok (st, sm) → dedupInvariant st := by
  intro st sm h
  unfold runSync at h
  by_cases hemp : inp.cameras.isEmpty
  · rw [if_pos hemp] at h; cases h
  · rw [if_neg hemp] at h
    have hcam : dedupInvariant (inp.cameras.foldl processCamera (store, 0, 0)).1 :=
      camera_phase_dedup inp.cameras (store, 0, 0) hstore hbatch
    cases hftp : inp.ftp with
    | none =>
      rw [hftp] at h
      cases h
      exact hcam
    | some files =>
      rw [hftp] at h
      cases h
      exact ftp_fold_dedup inp.ftpDir (inp.cameras.map Prod.fst) inp.now files _ hcam

/-- Witness for `sync_dedup_preserved` on the `inpClip` scenario over the
empty store. -/
theorem sync_dedup_preserved_witness : dedupInvariant [eventClipMerged] :=
  sync_dedup_preserved inpClip [] (by decide) (by decide) [eventClipMerged]
    { message := "Events synced from camera and FTP directory"
      new_events := 1
      total_events := 1
      cameras_processed := 1 }
    (by rfl)

/-- C5 counterexample: the drop-directory match during sync does not
recompute `is_orphaned`.  Starting from a store whose single Event is flagged
orphaned, a pass that finds `orph.mp4` in the drop directory sets
`is_downloaded := true` (present locally) yet leaves `is_orphaned = true`,
refuting the claim that flipping a presence flag to true makes `is_orphaned`
false. -/
theorem orphan_flag_counterexample :
    (runSync inpOrph [orphEvent]).map
        (fun p => p.1.map (fun e => (e.is_downloaded, e.is_orphaned))) =
      Except.ok [(true, true)] := by rfl

/-- C5 (amended): `is_orphaned` is recomputed only by the sync-status check:
`get_event_sync_status` persists `is_downloaded := on_server` and
`is_orphaned := not on_camera and not on_server` on the row, so after that
operation the orphan flag is exactly the conjunction of the two absences.
The drop-directory match during sync, by contrast, sets the presence flag,
path and size but leaves `is_orphaned` untouched. -/
theorem orphan_flag_spec :
    (∀ (store : List Event) (fs : List String) (cameras : List Camera)
        (fetch : Nat → Except Unit (List CameraEvent)) (de : Bool) (dir : String)
        (eid i : Nat) (e : Event),
      findById store eid = some (i, e) →
      ∃ on_server on_camera in_ftp,
        get_event_sync_status store fs cameras fetch de dir eid =
          Except.ok
            (store.set i
              { e with is_downloaded := on_server,
                       is_orphaned := !on_camera && !on_server },
             on_server, on_camera, in_ftp)) ∧
    (∀ (e : Event) (path : String) (size : Option Int),
      (ftpUpdateEvent e path size).is_orphaned = e.is_orphaned ∧
      (ftpUpdateEvent e path size).is_downloaded = true) := by
  constructor
  · intro store fs cameras fetch de dir eid i e hfind
    unfold get_event_sync_status
    rw [hfind]
    exact ⟨_, _, _, rfl⟩
  · intro e path size
    exact ⟨rfl, rfl⟩

/-- Witness for `orphan_flag_spec` on the single-row orphaned store. -/
theorem orphan_flag_spec_witness :
    ∃ on_server on_camera in_ftp,
      get_event_sync_status [orphEvent] [] [] (fun _ => Except.error ()) false "/d" 7 =
        Except.ok
          ([orphEvent].set 0
            { orphEvent with is_downloaded := on_server,
                             is_orphaned := !on_camera && !on_server },
           on_server, on_camera, in_ftp) :=
  orphan_flag_spec.1 [orphEvent] [] [] (fun _ => Except.error ()) false "/d" 7 0 orphEvent
    (by rfl)

/-- C9: frame property of local-only deletion.  When the row's `file_path` is
truthy and names an existing file, `delete_event_local` removes exactly that
file, replaces the row by a copy whose only changed fields are
`file_path := none` and `is_downloaded := false`, and leaves every other row
untouched (the returned store is `store.set i` of that copy); the third
conjunct spells out that the copy keeps `filename`, `camera_id`,
`triggered_at`, `is_deleted`, `is_played`, `event_name`, `file_size` and
`thumbnail_path`.  When there is no local file — a falsy path or a missing
file — the call still succeeds and changes neither the store nor the file
system. -/
theorem delete_event_local_frame :
    (∀ (store : List Event) (fs : List String) (eid i : Nat) (e : Event) (p : String),
      findById store eid = some (i, e) → e.file_path = some p → p ≠ "" →
      fs.contains p = true →
      delete_event_local store fs eid =
        Except.ok (store.set i { e with file_path := none, is_downloaded := false },
          fs.erase p, "Event file deleted from local storage")) ∧
    (∀ (store : List Event) (fs : List String) (eid i : Nat) (e : Event),
      findById store eid = some (i, e) →
      (truthyS e.file_path = false ∨ fs.contains (e.file_path.getD "") = false) →
      delete_event_local store fs eid = Except.ok (store, fs, "No local file to delete")) ∧
    (∀ e : Event,
      ({ e with file_path := none, is_downloaded := false } : Event).filename = e.filename ∧
      ({ e with file_path := none, is_downloaded := false } : Event).camera_id = e.camera_id ∧
      ({ e with file_path := none, is_downloaded := false } : Event).triggered_at = e.triggered_at ∧
      ({ e with file_path := none, is_downloaded := false } : Event).is_deleted = e.is_deleted ∧
      ({ e with file_path := none, is_downloaded := false } : Event).is_played = e.is_played ∧
      ({ e with file_path := none, is_downloaded := false } : Event).event_name = e.event_name ∧
      ({ e with file_path := none, is_downloaded := false } : Event).file_size = e.file_size ∧
      ({ e with file_path := none, is_downloaded := false } : Event).thumbnail_path = e.thumbnail_path) := by
  refine ⟨?_, ?_, ?_⟩
  · intro store fs eid i e p hfind hpath hne hfs
    simp only [delete_event_local, hfind, hpath]
    rw [if_pos ⟨hne, hfs⟩]
  · intro store fs eid i e hfind hcase
    cases hpath : e.file_path with
    | none => simp only [delete_event_local, hfind, hpath]
    | some p =>
      simp only [delete_event_local, hfind, hpath]
      rcases hcase with hfalsy | hnofile
      · rw [hpath] at hfalsy
        have hp : p = "" := by simpa [truthyS] using hfalsy
        subst hp
        rw [if_neg (fun hc => hc.1 rfl)]
      · rw [hpath] at hnofile
        simp only [Option.getD] at hnofile
        rw [if_neg (fun hc => Bool.false_ne_true (hnofile ▸ hc.2))]
  · intro e
    exact ⟨rfl, rfl, rfl, rfl, rfl, rfl, rfl, rfl⟩

/-- Witness for `delete_event_local_frame`: deleting the local file of a row
that has one, and calling the operation on a row without one. -/
theorem delete_event_local_frame_witness :
    delete_event_local
        [{ event0 with
            id := 5
            file_path := some "/data/a.mp4"
            is_downloaded := true }] ["/data/a.mp4"] 5 =
      Except.ok
        ([{ event0 with
            id := 5
            file_path := some "/data/a.mp4"
            is_downloaded := true }].set 0
          { { event0 with
              id := 5
              file_path := some "/data/a.mp4"
              is_downloaded := true } with file_path := none, is_downloaded := false },
         ["/data/a.mp4"].erase "/data/a.mp4", "Event file deleted from local storage") ∧
    delete_event_local [{ event0 with id := 5 }] [] 5 =
      Except.ok ([{ event0 with id := 5 }], [], "No local file to delete") :=
  ⟨delete_event_local_frame.1
      [{ event0 with
          id := 5
          file_path := some "/data/a.mp4"
          is_downloaded := true }]
      ["/data/a.mp4"] 5 0
      { event0 with
        id := 5
        file_path := some "/data/a.mp4"
        is_downloaded := true }
      "/data/a.mp4" (by rfl) (by rfl) (by decide) (by decide),
   delete_event_local_frame.2.1 [{ event0 with id := 5 }] [] 5 0 { event0 with id := 5 }
      (by rfl) (Or.inl (by rfl))⟩

/-- Helper: `connect` preserves the non-empty-set invariant. -/
lemma wsConnect_inv (st : WsState) (u q : Nat) (h : wsInv st) : wsInv (wsConnect st u q) := by
  unfold wsConnect
  cases hlk : st.lookup u with
  | some qs =>
    intro p hp
    rcases List.mem_map.mp hp with ⟨p0, hp0, hfp⟩
    by_cases hu : (p0.1 == u) = true
    · rw [if_pos hu] at hfp
      subst hfp
      by_cases hc : qs.contains q
      · simp only [hc, if_true]
        intro hnil
        rw [hnil] at hc
        cases hc
      · simp only [hc, Bool.false_eq_true, if_false]
        simp
    · rw [if_neg hu] at hfp
      subst hfp
      exact h p0 hp0
  | none =>
    intro p hp
    rcases List.mem_append.mp hp with h1 | h2
    · exact h p h1
    · rw [List.mem_singleton.mp h2]
      simp

/-- Helper: `disconnect` preserves the non-empty-set invariant. -/
lemma wsDisconnect_inv (st : WsState) (u q : Nat) (h : wsInv st) :
    wsInv (wsDisconnect st u q) := by
  unfold wsDisconnect
  cases hlk : st.lookup u with
  | none => exact h
  | some qs =>
    by_cases hemp : ((qs.erase q).isEmpty : Bool) = true
    · simp only [hemp, if_true]
      intro p hp
      exact h p (List.mem_of_mem_filter hp)
    · simp only [hemp, Bool.false_eq_true, if_false]
      intro p hp
      rcases List.mem_map.mp hp with ⟨p0, hp0, hfp⟩
      by_cases hu : (p0.1 == u) = true
      · rw [if_pos hu] at hfp
        subst hfp
        intro hnil
        exact hemp (by rw [show qs.erase q = [] from hnil]; rfl)
      · rw [if_neg hu] at hfp
        subst hfp
        exact h p0 hp0

/-- Helper: the delivery loop of `send_to_user` preserves the invariant. -/
lemma wsSend_fold_inv (u : Nat) (fails : List Nat) (qs : List Nat) :
    ∀ ac : WsState × List Nat, wsInv ac.1 →
      wsInv ((qs.foldl
        (fun acc q =>
          if fails.contains q then (wsDisconnect acc.1 u q, acc.2)
          else (acc.1, acc.2 ++ [q])) ac).1) := by
  induction qs with
  | nil => intro ac h; exact h
  | cons q rest ih =>
    intro ac h
    rw [List.foldl_cons]
    by_cases hf : (fails.contains q : Bool) = true
    · simp only [hf, if_true]
      exact ih _ (wsDisconnect_inv ac.1 u q h)
    · simp only [hf, Bool.false_eq_true, if_false]
      exact ih _ h

/-- C10: the WebSocket session map keeps every registered user mapped to a
non-empty set of queues — `connect`, `disconnect` (which deletes the user's
entry when its last queue goes) and `send_to_user` (whose failure handling
disconnects broken queues) each preserve the invariant, hence so does every
operation sequence; and `send_to_user` for a user with no registered
connections returns the state unchanged and delivers nothing. -/
theorem ws_session_map_invariant :
    (∀ (st : WsState) (op : WsOp), wsInv st → wsInv (wsStep st op)) ∧
    (∀ (ops : List WsOp) (st : WsState), wsInv st → wsInv (wsRun st ops)) ∧
    (∀ (st : WsState) (u : Nat) (fails : List Nat),
      st.lookup u = none → wsSendToUser st u fails = (st, [])) := by
  have hstep : ∀ (st : WsState) (op : WsOp), wsInv st → wsInv (wsStep st op) := by
    intro st op h
    cases op with
    | connect u q => exact wsConnect_inv st u q h
    | disconnect u q => exact wsDisconnect_inv st u q h
    | send u fails =>
      show wsInv (wsSendToUser st u fails).1
      unfold wsSendToUser
      cases hlk : st.lookup u with
      | none => exact h
      | some qs => exact wsSend_fold_inv u fails qs (st, []) h
  refine ⟨hstep, ?_, ?_⟩
  · intro ops
    induction ops with
    | nil => intro st h; exact h
    | cons op rest ih =>
      intro st h
      rw [wsRun, List.foldl_cons]
      exact ih (wsStep st op) (hstep st op h)
  · intro st u fails hlk
    unfold wsSendToUser
    rw [hlk]

/-- Witness for `ws_session_map_invariant`: a concrete operation sequence
over a one-user state, and a send to an unknown user. -/
theorem ws_session_map_invariant_witness :
    wsInv (wsRun [(1, [5])] [WsOp.connect 2 7, WsOp.send 1 [5], WsOp.disconnect 2 7]) ∧
    wsSendToUser [] 3 [1] = ([], []) :=
  ⟨ws_session_map_invariant.2.1 [WsOp.connect 2 7, WsOp.send 1 [5], WsOp.disconnect 2 7]
      [(1, [5])] (by decide),
   ws_session_map_invariant.2.2 [] 3 [1] (by rfl)⟩

/-- C6 counterexample: eligibility ignores the event-notification preference.
For the single active user with `event_notifications = false` and
`email_notifications = true`, the claim allows zero push attempts (N = 0
users have event notifications enabled) and zero email attempts; the code
performs one push attempt and one email attempt for that user. -/
theorem notification_eligibility_counterexample :
    send_event_notification [{ user0 with event_notifications := false }] (fun _ => false) =
      ([1], [1]) ∧
    ({ user0 with event_notifications := false } : User).event_notifications = false ∧
    ({ user0 with event_notifications := false } : User).is_active = true := by
  exact ⟨rfl, rfl, rfl⟩

/-- C6 (amended): for the user list it is given — which the sync pass builds
from ALL active users, with no preference condition (`syncNotificationRecipients`)
— `send_event_notification` makes exactly one push attempt per user, in list
order, regardless of any notification preference; and it attempts an email
exactly for those users whose `email_notifications` preference is set and
whose processing did not raise.  A failure while notifying one user skips
only that user's email attempt: the attempt lists for the remaining users
are unaffected, as the two closed-form equalities show. -/
theorem notification_fanout (users : List User) (renderFails : Nat → Bool) :
    (send_event_notification users renderFails).1 = users.map User.id ∧
    (send_event_notification users renderFails).2 =
      (users.filter (fun u => u.email_notifications && !renderFails u.id)).map User.id ∧
    syncNotificationRecipients users = users.filter (fun u => u.is_active) := by
  have hgen : ∀ (us : List User) (ac : List Nat × List Nat),
      us.foldl
        (fun acc u =>
          (acc.1 ++ [u.id],
           if u.email_notifications && !renderFails u.id then acc.2 ++ [u.id] else acc.2))
        ac =
      (ac.1 ++ us.map User.id,
       ac.2 ++ (us.filter (fun u => u.email_notifications && !renderFails u.id)).map User.id) := by
    intro us
    induction us with
    | nil => intro ac; simp
    | cons u rest ih =>
      intro ac
      rw [List.foldl_cons, ih]
      by_cases hu : (u.email_notifications && !renderFails u.id) = true
      · simp [hu, List.filter_cons, List.append_assoc]
      · simp only [Bool.not_eq_true] at hu
        simp [hu, List.filter_cons, List.append_assoc]
  unfold send_event_notification
  rw [hgen]
  exact ⟨by simp, by simp, rfl⟩

/-- Helper: membership through the insertion step. -/
lemma mem_insertSorted (le : Event → Event → Bool) (e x : Event) :
    ∀ l : List Event, x ∈ insertSorted le e l → x = e ∨ x ∈ l := by
  intro l
  induction l with
  | nil =>
    intro h
    rcases List.mem_singleton.mp h with h1
    exact Or.inl h1
  | cons y ys ih =>
    intro h
    unfold insertSorted at h
    by_cases hle : (le e y : Bool) = true
    · rw [if_pos hle] at h
      rcases List.mem_cons.mp h with h1 | h2
      · exact Or.inl h1
      · exact Or.inr h2
    · rw [if_neg hle] at h
      rcases List.mem_cons.mp h with h1 | h2
      · exact Or.inr (h1 ▸ List.mem_cons_self y ys)
      · rcases ih h2 with h3 | h4
        · exact Or.inl h3
        · exact Or.inr (List.mem_cons_of_mem y h4)

/-- Helper: membership through the sort. -/
lemma mem_sortByLe (le : Event → Event → Bool) (x : Event) :
    ∀ l : List Event, x ∈ sortByLe le l → x ∈ l := by
  intro l
  induction l with
  | nil => intro h; exact h
  | cons y ys ih =>
    intro h
    rcases mem_insertSorted le y x (sortByLe le ys) h with h1 | h2
    · exact h1 ▸ List.mem_cons_self y ys
    · exact List.mem_cons_of_mem y (ih h2)

/-- Helper: membership through the ORDER BY dispatch. -/
lemma mem_sortEvents (a b : String) (x : Event) (l : List Event)
    (h : x ∈ sortEvents a b l) : x ∈ l := by
  unfold sortEvents at h
  by_cases h1 : (a == "triggered_at") = true
  · rw [if_pos h1] at h
    by_cases h2 : (b == "desc") = true
    · rw [if_pos h2] at h; exact mem_sortByLe _ x l h
    · rw [if_neg h2] at h; exact mem_sortByLe _ x l h
  · rw [if_neg h1] at h
    by_cases h3 : (a == "filename") = true
    · rw [if_pos h3] at h
      by_cases h2 : (b == "desc") = true
      · rw [if_pos h2] at h; exact mem_sortByLe _ x l h
      · rw [if_neg h2] at h; exact mem_sortByLe _ x l h
    · rw [if_neg h3] at h; exact h

/-- Helper: membership through the tag join. -/
lemma mem_tagJoinRows (t : List Nat) (x : Event) (l : List Event)
    (h : x ∈ tagJoinRows t l) : x ∈ l := by
  unfold tagJoinRows at h
  by_cases hemp : (t.isEmpty : Bool) = true
  · rw [if_pos hemp] at h; exact h
  · rw [if_neg hemp] at h
    rcases List.mem_flatMap.mp h with ⟨a, ha, hx⟩
    rcases List.mem_map.mp hx with ⟨_, _, hax⟩
    exact hax ▸ ha

/-- Helper: the insertion step adds one row. -/
lemma length_insertSorted (le : Event → Event → Bool) (e : Event) :
    ∀ l : List Event, (insertSorted le e l).length = l.length + 1 := by
  intro l
  induction l with
  | nil => rfl
  | cons y ys ih =>
    unfold insertSorted
    by_cases hle : (le e y : Bool) = true
    · rw [if_pos hle]; rfl
    · rw [if_neg hle]
      simp [List.length_cons, ih]

/-- Helper: the sort keeps the row count. -/
lemma length_sortByLe (le : Event → Event → Bool) :
    ∀ l : List Event, (sortByLe le l).length = l.length := by
  intro l
  induction l with
  | nil => rfl
  | cons y ys ih =>
    show (insertSorted le y (sortByLe le ys)).length = ys.length + 1
    rw [length_insertSorted, ih]

/-- Helper: the ORDER BY dispatch keeps the row count. -/
lemma length_sortEvents (a b : String) (l : List Event) :
    (sortEvents a b l).length = l.length := by
  unfold sortEvents
  by_cases h1 : (a == "triggered_at") = true
  · rw [if_pos h1]
    by_cases h2 : (b == "desc") = true
    · rw [if_pos h2]; exact length_sortByLe _ l
    · rw [if_neg h2]; exact length_sortByLe _ l
  · rw [if_neg h1]
    by_cases h3 : (a == "filename") = true
    · rw [if_pos h3]
      by_cases h2 : (b == "desc") = true
      · rw [if_pos h2]; exact length_sortByLe _ l
      · rw [if_neg h2]; exact length_sortByLe _ l
    · rw [if_neg h3]

/-- Helper: the tag join contributes `wTag` rows per event. -/
lemma length_tagJoinRows (t : List Nat) (l : List Event) :
    (tagJoinRows t l).length = (l.map (wTag t)).sum := by
  unfold tagJoinRows
  by_cases hemp : (t.isEmpty : Bool) = true
  · rw [if_pos hemp]
    induction l with
    | nil => rfl
    | cons x xs ih =>
      simp only [List.map_cons, List.sum_cons, wTag, hemp, if_true, List.length_cons, ih]
      omega
  · rw [if_neg hemp]
    rw [List.length_flatMap]
    congr 1
    apply List.map_congr_left
    intro e _
    simp [wTag, hemp, Function.comp]

/-- Helper: filtering by a stronger predicate yields at most the weighted
row count of the weaker one. -/
lemma sum_filter_le (w : Event → Nat) (p q : Event → Bool)
    (himp : ∀ e, p e = true → q e = true) :
    ∀ store : List Event,
      ((store.filter p).map w).sum ≤ ((store.filter q).map w).sum := by
  intro store
  induction store with
  | nil => exact Nat.le_refl 0
  | cons x xs ih =>
    simp only [List.filter_cons]
    by_cases hp : p x = true
    · rw [if_pos hp, if_pos (himp x hp)]
      simp only [List.map_cons, List.sum_cons]
      omega
    · rw [if_neg (by simp [hp])]
      by_cases hq : q x = true
      · rw [if_pos hq]
        simp only [List.map_cons, List.sum_cons]
        omega
      · rw [if_neg (by simp [hq])]
        exact ih

/-- Helper: a row passing the weaker filter only, with positive weight,
makes the weighted count strictly larger. -/
lemma sum_filter_lt (w : Event → Nat) (p q : Event → Bool)
    (himp : ∀ e, p e = true → q e = true) :
    ∀ store : List Event,
      (∃ e ∈ store, q e = true ∧ p e = false ∧ 1 ≤ w e) →
      ((store.filter p).map w).sum < ((store.filter q).map w).sum := by
  intro store
  induction store with
  | nil => intro h; rcases h with ⟨e, he, _⟩; cases he
  | cons x xs ih =>
    intro h
    rcases h with ⟨e, he, hq, hp, hw⟩
    simp only [List.filter_cons]
    rcases List.mem_cons.mp he with hex | hexs
    · subst hex
      rw [if_neg (by simp [hp]), if_pos hq]
      simp only [List.map_cons, List.sum_cons]
      have := sum_filter_le w p q himp xs
      omega
    · have hrec := ih ⟨e, hexs, hq, hp, hw⟩
      by_cases hpx : p x = true
      · rw [if_pos hpx, if_pos (himp x hpx)]
        simp only [List.map_cons, List.sum_cons]
        omega
      · rw [if_neg (by simp [hpx])]
        by_cases hqx : q x = true
        · rw [if_pos hqx]
          simp only [List.map_cons, List.sum_cons]
          omega
        · rw [if_neg (by simp [hqx])]
          exact hrec

/-- C8: the listing returns only non-deleted rows, but the `total` of
`list_events` comes from a count query with no `is_deleted` condition: as
soon as one soft-deleted Event satisfies the other active filters (and, when
the tag filter is on, has a matching tag), `total` strictly exceeds the
number of rows reachable through pagination (`listAllRows`, the unpaginated
listing). -/
theorem list_events_total_counts_deleted :
    (∀ (f : ListFilters) (cameras : List Camera) (store : List Event),
      ∀ e ∈ (list_events f cameras store).1, e.is_deleted = false) ∧
    (∀ (f : ListFilters) (cameras : List Camera) (store : List Event),
      (∃ e ∈ store, e.is_deleted = true ∧ countsTowardTotal f e = true) →
      (listAllRows f cameras store).length < (list_events f cameras store).2) := by
  constructor
  · intro f cameras store e he
    have h1 : e ∈ listAllRows f cameras store :=
      (List.drop_sublist f.offset _).subset ((List.take_sublist f.limit _).subset he)
    have h2 := mem_tagJoinRows f.tag_ids e _ (mem_sortEvents f.sort_by f.sort_order e _ h1)
    have h3 := List.of_mem_filter h2
    have h4 : (!e.is_deleted) = true := by
      cases hcam : cameras.any (fun c => c.id == e.camera_id) <;>
        cases hdel : (!e.is_deleted) <;> simp [hcam, hdel] at h3 ⊢
    simpa using h4
  · intro f cameras store hex
    unfold listAllRows list_events
    rw [length_sortEvents, length_tagJoinRows, length_tagJoinRows]
    apply sum_filter_lt
    · intro e hpe
      have : (cameras.any (fun c => c.id == e.camera_id) && !e.is_deleted && listFilterCond f e) = true := hpe
      simp only [Bool.and_eq_true] at this
      exact this.2
    · rcases hex with ⟨e, he, hdel, hcount⟩
      refine ⟨e, he, ?_, ?_, ?_⟩
      · unfold countsTowardTotal at hcount
        simp only [Bool.and_eq_true] at hcount
        exact hcount.1
      · simp [hdel]
      · unfold countsTowardTotal at hcount
        simp only [Bool.and_eq_true, decide_eq_true_eq] at hcount
        exact hcount.2

/-- Witness for `list_events_total_counts_deleted`: a store whose single row
is soft-deleted yields `total = 1` while no row is retrievable. -/
theorem list_events_total_counts_deleted_witness :
    (listAllRows filters0 [camA] [{ event0 with is_deleted := true }]).length <
      (list_events filters0 [camA] [{ event0 with is_deleted := true }]).2 :=
  list_events_total_counts_deleted.2 filters0 [camA] [{ event0 with is_deleted := true }]
    (by decide)

/-- Helper: head equation of `findIdx?` at start index zero. -/
lemma findIdx?_cons_zero {α : Type} (p : α → Bool) (x : α) (xs : List α) :
    List.findIdx? p (x :: xs) = if p x then some 0 else (List.findIdx? p xs).map (· + 1) := by
  rw [List.findIdx?_cons, List.findIdx?_succ]

/-- Helper: rewriting a position with the value it already holds changes
nothing. -/
lemma set_getElem_self {α : Type} : ∀ (l : List α) (i : Nat) (e : α),
    l[i]? = some e → l.set i e = l := by
  intro l
  induction l with
  | nil => intro i e h; cases h
  | cons x xs ih =>
    intro i e h
    cases i with
    | zero =>
      rw [List.getElem?_cons_zero] at h
      cases h
      rfl
    | succ n =>
      rw [List.getElem?_cons_succ] at h
      show x :: xs.set n e = x :: xs
      rw [ih n e h]

/-- Helper: head equation of the normalized-filename search. -/
lemma find_matching_cons (x : Event) (xs : List Event) (fn : String) :
    find_matching_event_by_filename (x :: xs) fn =
      if normalize_filename x.filename == normalize_filename fn then some 0
      else (find_matching_event_by_filename xs fn).map (· + 1) := by
  unfold find_matching_event_by_filename
  exact findIdx?_cons_zero _ x xs

/-- Helper: the normalized-filename search depends only on the filename at
each position. -/
lemma find_matching_congr : ∀ (l l2 : List Event), l.length = l2.length →
    (∀ (j : Nat) (a b : Event), l[j]? = some a → l2[j]? = some b → a.filename = b.filename) →
    ∀ fn, find_matching_event_by_filename l fn = find_matching_event_by_filename l2 fn := by
  intro l
  induction l with
  | nil =>
    intro l2 hlen _ fn
    cases l2 with
    | nil => rfl
    | cons y ys => cases hlen
  | cons x xs ih =>
    intro l2 hlen hfn fn
    cases l2 with
    | nil => cases hlen
    | cons y ys =>
      rw [find_matching_cons, find_matching_cons]
      have hxy : x.filename = y.filename := hfn 0 x y (by simp) (by simp)
      rw [hxy]
      by_cases hm : (normalize_filename y.filename == normalize_filename fn) = true
      · rw [if_pos hm, if_pos hm]
      · rw [if_neg hm, if_neg hm]
        rw [ih ys (by simpa using hlen)
          (fun j a b ha hb => hfn (j + 1) a b (by simpa using ha) (by simpa using hb)) fn]

/-- Helper: a hit in the first part of an appended store stays a hit. -/
lemma find_matching_append_some (l l2 : List Event) (fn : String) (i : Nat)
    (h : find_matching_event_by_filename l fn = some i) :
    find_matching_event_by_filename (l ++ l2) fn = some i := by
  unfold find_matching_event_by_filename at h ⊢
  rw [List.findIdx?_append, h]
  rfl

/-- Helper: appending a matching row to a store with no hit makes the new
position the first hit. -/
lemma find_matching_append_none (l : List Event) (x : Event) (fn : String)
    (hnone : find_matching_event_by_filename l fn = none)
    (hx : (normalize_filename x.filename == normalize_filename fn) = true) :
    find_matching_event_by_filename (l ++ [x]) fn = some l.length := by
  unfold find_matching_event_by_filename at hnone ⊢
  rw [List.findIdx?_append, hnone, Option.none_or, findIdx?_cons_zero, if_pos hx]
  simp

/-- Helper: length through `updateAt`. -/
lemma length_updateAt (st : List Event) (i : Nat) (f : Event → Event) :
    (updateAt st i f).length = st.length := by
  unfold updateAt
  cases h : st.get? i with
  | some e => exact List.length_set st i (f e)
  | none => rfl

/-- Helper: `updateAt` rewrites the addressed position. -/
lemma getElem?_updateAt_self (st : List Event) (i : Nat) (f : Event → Event) (e : Event)
    (h : st[i]? = some e) : (updateAt st i f)[i]? = some (f e) := by
  unfold updateAt
  rw [List.get?_eq_getElem?, h]
  exact List.getElem?_set_self (by
    have := List.getElem?_eq_some_iff.mp h
    exact this.1)

/-- Helper: `updateAt` leaves the other positions alone. -/
lemma getElem?_updateAt_ne (st : List Event) (i j : Nat) (f : Event → Event)
    (hne : i ≠ j) : (updateAt st i f)[j]? = st[j]? := by
  unfold updateAt
  cases h : st.get? i with
  | some e => exact List.getElem?_set_ne hne
  | none => rfl

/-- Helper: when all four guards are false, backfilling returns the row
unchanged. -/
lemma backfillNoop_eq (e : Event) (r : CameraEvent) (h : backfillNoop e r) :
    backfillEvent e r = e := by
  unfold backfillEvent
  rw [h.1, h.2.1, h.2.2.1, h.2.2.2]
  rfl

/-- Helper: after one backfill, a second backfill by the same record writes
nothing. -/
lemma backfillNoop_post (e : Event) (r : CameraEvent) : backfillNoop (backfillEvent e r) r := by
  refine ⟨?_, ?_, ?_, ?_⟩ <;> unfold backfillEvent
  · by_cases h : (!truthyS e.event_name && truthyS r.eventName) = true
    · have hcomp := h
      rw [Bool.and_eq_true] at hcomp
      have hfalse : truthyS e.event_name = false := by simpa using hcomp.1
      simp [hfalse, hcomp.2]
    · simp only [Bool.not_eq_true] at h
      simp [h]
  · by_cases h : (!truthyS e.video_extension && (r.vidExt != "")) = true
    · have hcomp := h
      rw [Bool.and_eq_true] at hcomp
      have : truthyS (some r.vidExt) = true := by
        simpa [truthyS] using hcomp.2
      have hfalse : truthyS e.video_extension = false := by simpa using hcomp.1
      simp [hfalse, this]
      intro hcon
      have hne : r.vidExt ≠ "" := by simpa using hcomp.2
      rw [if_neg hne, this] at hcon
      cases hcon
    · simp only [Bool.not_eq_true] at h
      simp [h]
  · by_cases h : (!truthyS e.thumbnail_extension && (r.thmbExt != "")) = true
    · have hcomp := h
      rw [Bool.and_eq_true] at hcomp
      have : truthyS (some r.thmbExt) = true := by
        simpa [truthyS] using hcomp.2
      have hfalse : truthyS e.thumbnail_extension = false := by simpa using hcomp.1
      simp [hfalse, this]
      intro hcon
      have hne : r.thmbExt ≠ "" := by simpa using hcomp.2
      rw [if_neg hne, this] at hcon
      cases hcon
    · simp only [Bool.not_eq_true] at h
      simp [h]
  · by_cases h : (!truthyI e.playback_time && (r.playbackTime != 0)) = true
    · have hcomp := h
      rw [Bool.and_eq_true] at hcomp
      have : truthyI (some r.playbackTime) = true := by
        simpa [truthyI] using hcomp.2
      have hfalse : truthyI e.playback_time = false := by simpa using hcomp.1
      simp [hfalse, this]
      intro hcon
      have hne : r.playbackTime ≠ 0 := by simpa using hcomp.2
      rw [if_neg hne, this] at hcon
      cases hcon
    · simp only [Bool.not_eq_true] at h
      simp [h]

/-- Helper: `updateAt` at a present position is a `set` of the mutated row. -/
lemma updateAt_eq_set (st : List Event) (i : Nat) (f : Event → Event) (e : Event)
    (h : st[i]? = some e) : updateAt st i f = st.set i (f e) := by
  unfold updateAt
  rw [List.get?_eq_getElem?, h]

/-- Helper: full characterization of the normalized-filename search. -/
lemma find_matching_some_iff : ∀ (l : List Event) (fn : String) (i : Nat),
    find_matching_event_by_filename l fn = some i ↔
      (∃ e, l[i]? = some e ∧
        (normalize_filename e.filename == normalize_filename fn) = true) ∧
      ∀ (j : Nat) (e : Event), j < i → l[j]? = some e →
        (normalize_filename e.filename == normalize_filename fn) = false := by
  intro l
  induction l with
  | nil =>
    intro fn i
    constructor
    · intro h; cases h
    · intro ⟨⟨e, he, _⟩, _⟩; cases he
  | cons x xs ih =>
    intro fn i
    rw [find_matching_cons]
    by_cases hm : (normalize_filename x.filename == normalize_filename fn) = true
    · rw [if_pos hm]
      constructor
      · intro h
        cases h
        exact ⟨⟨x, by simp, hm⟩, fun j e hj _ => absurd hj (Nat.not_lt_zero j)⟩
      · intro ⟨⟨e, he, hme⟩, hlt⟩
        cases i with
        | zero => rfl
        | succ n =>
          have := hlt 0 x (Nat.succ_pos n) (by simp)
          rw [hm] at this
          cases this
    · rw [if_neg hm]
      constructor
      · intro h
        rcases Option.map_eq_some'.mp h with ⟨i0, hfind, hi⟩
        subst hi
        rcases (ih fn i0).mp hfind with ⟨⟨e, he, hme⟩, hlt⟩
        refine ⟨⟨e, by simpa using he, hme⟩, ?_⟩
        intro j e2 hj hje
        cases j with
        | zero =>
          rw [List.getElem?_cons_zero] at hje
          cases hje
          simpa using hm
        | succ m =>
          rw [List.getElem?_cons_succ] at hje
          exact hlt m e2 (by omega) hje
      · intro ⟨⟨e, he, hme⟩, hlt⟩
        cases i with
        | zero =>
          rw [List.getElem?_cons_zero] at he
          cases he
          exact absurd hme (by simpa using hm)
        | succ n =>
          rw [List.getElem?_cons_succ] at he
          have : find_matching_event_by_filename xs fn = some n := by
            rw [ih fn n]
            refine ⟨⟨e, he, hme⟩, ?_⟩
            intro j e2 hj hje
            exact hlt (j + 1) e2 (by omega) (by simpa using hje)
          rw [this]
          rfl

/-- Helper: the pass-evolution relation is reflexive. -/
lemma extendsTo_refl (s : List Event) : extendsTo s s :=
  ⟨Nat.le_refl _, fun _ e he =>
    ⟨e, he, rfl, rfl, fun _ => rfl, fun _ => rfl, fun _ => rfl, fun _ => rfl⟩⟩

/-- Helper: the pass-evolution relation is transitive. -/
lemma extendsTo_trans {a b c : List Event} (h1 : extendsTo a b) (h2 : extendsTo b c) :
    extendsTo a c := by
  refine ⟨Nat.le_trans h1.1 h2.1, ?_⟩
  intro i e he
  rcases h1.2 i e he with ⟨e2, he2, hf, hc, h4, h5, h6, h7⟩
  rcases h2.2 i e2 he2 with ⟨e3, he3, hf2, hc2, h42, h52, h62, h72⟩
  refine ⟨e3, he3, hf2.trans hf, hc2.trans hc, ?_, ?_, ?_, ?_⟩
  · intro ht
    rw [h42 (by rw [h4 ht]; exact ht), h4 ht]
  · intro ht
    rw [h52 (by rw [h5 ht]; exact ht), h5 ht]
  · intro ht
    rw [h62 (by rw [h6 ht]; exact ht), h6 ht]
  · intro ht
    rw [h72 (by rw [h7 ht]; exact ht), h7 ht]

/-- Helper: appending rows is a pass evolution. -/
lemma extendsTo_append (s l : List Event) : extendsTo s (s ++ l) := by
  refine ⟨by simp, ?_⟩
  intro i e he
  have hi : i < s.length := (List.getElem?_eq_some_iff.mp he).1
  exact ⟨e, by rw [List.getElem?_append_left hi]; exact he, rfl, rfl,
    fun _ => rfl, fun _ => rfl, fun _ => rfl, fun _ => rfl⟩

/-- Helper: an in-place mutation that keeps the filename, the camera and the
truthy descriptive fields is a pass evolution. -/
lemma extendsTo_updateAt (s : List Event) (i : Nat) (f : Event → Event)
    (hk : ∀ e : Event,
      (f e).filename = e.filename ∧ (f e).camera_id = e.camera_id ∧
      (truthyS e.event_name = true → (f e).event_name = e.event_name) ∧
      (truthyS e.video_extension = true → (f e).video_extension = e.video_extension) ∧
      (truthyS e.thumbnail_extension = true → (f e).thumbnail_extension = e.thumbnail_extension) ∧
      (truthyI e.playback_time = true → (f e).playback_time = e.playback_time)) :
    extendsTo s (updateAt s i f) := by
  refine ⟨by rw [length_updateAt], ?_⟩
  intro j e he
  by_cases hij : i = j
  · subst hij
    exact ⟨f e, getElem?_updateAt_self s i f e he, (hk e).1, (hk e).2.1,
      (hk e).2.2.1, (hk e).2.2.2.1, (hk e).2.2.2.2.1, (hk e).2.2.2.2.2⟩
  · exact ⟨e, by rw [getElem?_updateAt_ne s i j f hij]; exact he, rfl, rfl,
      fun _ => rfl, fun _ => rfl, fun _ => rfl, fun _ => rfl⟩

/-- Helper: the normalized-filename search is stable under pass evolution. -/
lemma find_matching_stable {s s2 : List Event} (h : extendsTo s s2) (fn : String) (i : Nat)
    (hfind : find_matching_event_by_filename s fn = some i) :
    find_matching_event_by_filename s2 fn = some i := by
  rcases (find_matching_some_iff s fn i).mp hfind with ⟨⟨e, he, hme⟩, hlt⟩
  have hi : i < s.length := (List.getElem?_eq_some_iff.mp he).1
  rcases h.2 i e he with ⟨e2, he2, hf, _⟩
  rw [find_matching_some_iff]
  refine ⟨⟨e2, he2, by rw [hf]; exact hme⟩, ?_⟩
  intro j b hj hjb
  have hjlt : j < s.length := Nat.lt_trans hj hi
  have hjs : s[j]? = some s[j] := List.getElem?_eq_getElem hjlt
  rcases h.2 j s[j] hjs with ⟨b2, hb2, hbf, _⟩
  rw [hjb] at hb2
  cases hb2
  rw [hbf]
  exact hlt j s[j] hj hjs

/-- Helper: the exact-match test holds exactly when some row carries the
camera id and the raw filename. -/
lemma exactKnown_iff (st : List Event) (camId : Nat) (fname : String) :
    exactKnown st camId fname = true ↔
      ∃ e ∈ st, e.camera_id = camId ∧ e.filename = fname := by
  unfold exactKnown
  rw [List.contains_iff_exists_mem_beq]
  constructor
  · intro ⟨a, ha, hbeq⟩
    rcases List.mem_map.mp ha with ⟨e, hef, hee⟩
    refine ⟨e, List.mem_of_mem_filter hef, ?_, ?_⟩
    · have := List.of_mem_filter hef
      simpa using this
    · rw [hee]
      exact (beq_iff_eq.mp hbeq).symm
  · intro ⟨e, he, hc, hf⟩
    refine ⟨e.filename, ?_, by rw [hf]; simp⟩
    apply List.mem_map_of_mem
    apply List.mem_filter_of_mem he
    simp [hc]

/-- Helper: the exact-match test is stable under pass evolution. -/
lemma exactKnown_stable {s s2 : List Event} (h : extendsTo s s2) (camId : Nat) (fname : String)
    (he : exactKnown s camId fname = true) : exactKnown s2 camId fname = true := by
  rcases (exactKnown_iff s camId fname).mp he with ⟨e, hmem, hc, hf⟩
  rcases List.mem_iff_getElem?.mp hmem with ⟨j, hj⟩
  rcases h.2 j e hj with ⟨e2, hj2, hf2, hc2, _⟩
  rw [exactKnown_iff]
  exact ⟨e2, List.mem_iff_getElem?.mpr ⟨j, hj2⟩, by rw [hc2, hc], by rw [hf2, hf]⟩

/-- Helper: settledness of a record is stable under pass evolution. -/
lemma recSettled_stable {s s2 : List Event} (h : extendsTo s s2) (cam : Camera)
    (r : CameraEvent) (hs : recSettled s cam r) : recSettled s2 cam r := by
  rcases hs with hex | ⟨i, e, hfind, he, hnoop⟩
  · exact Or.inl (exactKnown_stable h cam.id r.fileName hex)
  · rcases h.2 i e he with ⟨e2, he2, _, _, h4, h5, h6, h7⟩
    refine Or.inr ⟨i, e2, find_matching_stable h r.fileName i hfind, he2, ?_, ?_, ?_, ?_⟩
    · by_cases ht : truthyS e.event_name = true
      · rw [h4 ht, Bool.and_eq_false_iff]
        exact Or.inl (by rw [ht]; rfl)
      · have := hnoop.1
        simp only [Bool.not_eq_true] at ht
        rw [ht] at this
        rw [Bool.and_eq_false_iff] at this ⊢
        rcases this with h1 | h2
        · cases h1
        · exact Or.inr h2
    · by_cases ht : truthyS e.video_extension = true
      · rw [h5 ht, Bool.and_eq_false_iff]
        exact Or.inl (by rw [ht]; rfl)
      · have := hnoop.2.1
        simp only [Bool.not_eq_true] at ht
        rw [ht] at this
        rw [Bool.and_eq_false_iff] at this ⊢
        rcases this with h1 | h2
        · cases h1
        · exact Or.inr h2
    · by_cases ht : truthyS e.thumbnail_extension = true
      · rw [h6 ht, Bool.and_eq_false_iff]
        exact Or.inl (by rw [ht]; rfl)
      · have := hnoop.2.2.1
        simp only [Bool.not_eq_true] at ht
        rw [ht] at this
        rw [Bool.and_eq_false_iff] at this ⊢
        rcases this with h1 | h2
        · cases h1
        · exact Or.inr h2
    · by_cases ht : truthyI e.playback_time = true
      · rw [h7 ht, Bool.and_eq_false_iff]
        exact Or.inl (by rw [ht]; rfl)
      · have := hnoop.2.2.2
        simp only [Bool.not_eq_true] at ht
        rw [ht] at this
        rw [Bool.and_eq_false_iff] at this ⊢
        rcases this with h1 | h2
        · cases h1
        · exact Or.inr h2

/-- Helper: backfilling keeps the filename, the camera and every truthy
descriptive field. -/
lemma keeps_backfill (r : CameraEvent) (e : Event) :
    (backfillEvent e r).filename = e.filename ∧ (backfillEvent e r).camera_id = e.camera_id ∧
    (truthyS e.event_name = true → (backfillEvent e r).event_name = e.event_name) ∧
    (truthyS e.video_extension = true →
      (backfillEvent e r).video_extension = e.video_extension) ∧
    (truthyS e.thumbnail_extension = true →
      (backfillEvent e r).thumbnail_extension = e.thumbnail_extension) ∧
    (truthyI e.playback_time = true → (backfillEvent e r).playback_time = e.playback_time) := by
  refine ⟨rfl, rfl, ?_, ?_, ?_, ?_⟩ <;> intro ht <;> simp [backfillEvent, ht]

/-- Helper: an update within the first part commutes with appending. -/
lemma updateAt_append_left (st news : List Event) (i : Nat) (f : Event → Event)
    (hi : i < st.length) : updateAt (st ++ news) i f = updateAt st i f ++ news := by
  have he : st[i]? = some st[i] := List.getElem?_eq_getElem hi
  have he2 : (st ++ news)[i]? = some st[i] := by
    rw [List.getElem?_append_left hi]; exact he
  rw [updateAt_eq_set st i f st[i] he, updateAt_eq_set (st ++ news) i f st[i] he2,
    List.set_append_left i (f st[i]) hi]

/-- Helper: one camera-record step is a pass evolution of the pair. -/
lemma step_extendsTo (cam : Camera) (st news : List Event) (r : CameraEvent) :
    extendsTo (st ++ news)
      ((processCameraRecord cam (st, news) r).1 ++ (processCameraRecord cam (st, news) r).2) := by
  rw [processCameraRecord_eq]
  by_cases hex : exactKnown st cam.id r.fileName = true
  · rw [if_pos hex]
    exact extendsTo_refl _
  · rw [if_neg (by simpa using hex)]
    cases hfind : find_matching_event_by_filename st r.fileName with
    | some i =>
      rcases (find_matching_some_iff st r.fileName i).mp hfind with ⟨⟨e, he, _⟩, _⟩
      have hi : i < st.length := (List.getElem?_eq_some_iff.mp he).1
      show extendsTo (st ++ news) (updateAt st i (fun x => backfillEvent x r) ++ news)
      rw [← updateAt_append_left st news i _ hi]
      exact extendsTo_updateAt (st ++ news) i _ (fun x => keeps_backfill r x)
    | none =>
      cases htime : r.triggeredAt with
      | none => exact extendsTo_refl _
      | some t =>
        show extendsTo (st ++ news) (st ++ (news ++ [mkEventFromCamera cam r t]))
        rw [← List.append_assoc]
        exact extendsTo_append _ _

/-- Helper: a whole camera batch is a pass evolution of the pair. -/
lemma batch_fold_extendsTo (cam : Camera) : ∀ (recs : List CameraEvent)
    (acc : List Event × List Event),
    extendsTo (acc.1 ++ acc.2)
      ((recs.foldl (processCameraRecord cam) acc).1 ++
       (recs.foldl (processCameraRecord cam) acc).2) := by
  intro recs
  induction recs with
  | nil => intro acc; exact extendsTo_refl _
  | cons r rest ih =>
    intro acc
    obtain ⟨st, news⟩ := acc
    rw [List.foldl_cons]
    exact extendsTo_trans (step_extendsTo cam st news r) (ih _)

/-- Helper: a camera batch with parseable timestamps leaves each of its
records settled in the resulting pair. -/
lemma batch_settles (cam : Camera) : ∀ (recs : List CameraEvent)
    (acc : List Event × List Event),
    (∀ r ∈ recs, r.triggeredAt ≠ none) →
    ∀ r ∈ recs,
      recSettled ((recs.foldl (processCameraRecord cam) acc).1 ++
        (recs.foldl (processCameraRecord cam) acc).2) cam r := by
  intro recs
  induction recs with
  | nil => intro acc _ r hr; cases hr
  | cons r0 rest ih =>
    intro acc hparse r hr
    obtain ⟨st, news⟩ := acc
    rw [List.foldl_cons]
    rcases List.mem_cons.mp hr with hhead | htail
    · subst hhead
      have hsettle : recSettled ((processCameraRecord cam (st, news) r).1 ++
          (processCameraRecord cam (st, news) r).2) cam r := by
        rw [processCameraRecord_eq]
        by_cases hex : exactKnown st cam.id r.fileName = true
        · rw [if_pos hex]
          exact Or.inl (exactKnown_stable (extendsTo_append st news) cam.id r.fileName hex)
        · rw [if_neg (by simpa using hex)]
          cases hfind : find_matching_event_by_filename st r.fileName with
          | some i =>
            rcases (find_matching_some_iff st r.fileName i).mp hfind with ⟨⟨e, he, _⟩, _⟩
            have hi : i < st.length := (List.getElem?_eq_some_iff.mp he).1
            refine Or.inr ⟨i, backfillEvent e r, ?_, ?_, backfillNoop_post e r⟩
            · apply find_matching_append_some
              exact find_matching_stable
                (extendsTo_updateAt st i (fun x => backfillEvent x r)
                  (fun x => keeps_backfill r x)) r.fileName i hfind
            · have hup : (updateAt st i (fun x => backfillEvent x r))[i]? =
                  some (backfillEvent e r) :=
                getElem?_updateAt_self st i _ e he
              rw [List.getElem?_append_left (by rw [length_updateAt]; exact hi)]
              exact hup
          | none =>
            cases htime : r.triggeredAt with
            | none => exact absurd htime (hparse r (List.mem_cons_self _ _))
            | some t =>
              apply Or.inl
              rw [exactKnown_iff]
              exact ⟨mkEventFromCamera cam r t,
                by simp [List.mem_append], rfl, rfl⟩
      exact recSettled_stable (batch_fold_extendsTo cam rest _) cam r hsettle
    · exact ih _ (fun x hx => hparse x (List.mem_cons_of_mem r0 hx)) r htail

/-- Helper: unfolded form of one drop-directory file step. -/
lemma processFtpFile_eq (dir : String) (cams : List Camera) (now : Int)
    (st : List Event) (stats : FtpStats) (f : FtpFile) :
    processFtpFile dir cams now (st, stats) f =
      if !ftpVideoFile f.fname then (st, stats)
      else
        match find_matching_event_by_filename st f.fname with
        | some i =>
          (updateAt st i (fun e => ftpUpdateEvent e (dir ++ "/" ++ f.fname) f.size),
           { stats with processed := stats.processed + 1, updated := stats.updated + 1 })
        | none =>
          (st ++ [mkEventFromFtp f.fname (dir ++ "/" ++ f.fname)
             (attributeCamera cams f.fname) now],
           { stats with processed := stats.processed + 1, created := stats.created + 1 }) := rfl

/-- Helper: a non-video entry is skipped. -/
lemma processFtpFile_skip (dir : String) (cams : List Camera) (now : Int)
    (st : List Event) (stats : FtpStats) (f : FtpFile)
    (h : ftpVideoFile f.fname = false) :
    processFtpFile dir cams now (st, stats) f = (st, stats) := by
  rw [processFtpFile_eq, if_pos (by simp [h])]

/-- Helper: a video file with a normalized match updates the matched row. -/
lemma processFtpFile_update (dir : String) (cams : List Camera) (now : Int)
    (st : List Event) (stats : FtpStats) (f : FtpFile) (i : Nat)
    (h : ftpVideoFile f.fname = true)
    (hfind : find_matching_event_by_filename st f.fname = some i) :
    processFtpFile dir cams now (st, stats) f =
      (updateAt st i (fun e => ftpUpdateEvent e (dir ++ "/" ++ f.fname) f.size),
       { stats with processed := stats.processed + 1, updated := stats.updated + 1 }) := by
  rw [processFtpFile_eq, if_neg (by simp [h]), hfind]

/-- Helper: a video file without a match creates a row named after itself. -/
lemma processFtpFile_create (dir : String) (cams : List Camera) (now : Int)
    (st : List Event) (stats : FtpStats) (f : FtpFile)
    (h : ftpVideoFile f.fname = true)
    (hfind : find_matching_event_by_filename st f.fname = none) :
    processFtpFile dir cams now (st, stats) f =
      (st ++ [mkEventFromFtp f.fname (dir ++ "/" ++ f.fname)
         (attributeCamera cams f.fname) now],
       { stats with processed := stats.processed + 1, created := stats.created + 1 }) := by
  rw [processFtpFile_eq, if_neg (by simp [h]), hfind]

/-- Helper: the whole camera section is a pass evolution. -/
lemma camera_phase_extendsTo : ∀ (cams : List (Camera × Except Unit (List CameraEvent)))
    (acc : List Event × Nat × Nat),
    extendsTo acc.1 (cams.foldl processCamera acc).1 := by
  intro cams
  induction cams with
  | nil => intro acc; exact extendsTo_refl _
  | cons cf rest ih =>
    intro acc
    rw [List.foldl_cons]
    refine extendsTo_trans ?_ (ih _)
    cases hcf : cf.2 with
    | error e =>
      show extendsTo acc.1 (processCamera acc cf).1
      unfold processCamera
      rw [hcf]
      exact extendsTo_refl _
    | ok recs =>
      show extendsTo acc.1 (processCamera acc cf).1
      unfold processCamera
      rw [hcf]
      have := batch_fold_extendsTo cf.1 recs (acc.1, [])
      rw [List.append_nil] at this
      exact this

/-- Helper: the drop-directory update keeps filename, camera and the
descriptive fields. -/
lemma keeps_ftpUpdate (path : String) (size : Option Int) (e : Event) :
    (ftpUpdateEvent e path size).filename = e.filename ∧
    (ftpUpdateEvent e path size).camera_id = e.camera_id ∧
    (truthyS e.event_name = true → (ftpUpdateEvent e path size).event_name = e.event_name) ∧
    (truthyS e.video_extension = true →
      (ftpUpdateEvent e path size).video_extension = e.video_extension) ∧
    (truthyS e.thumbnail_extension = true →
      (ftpUpdateEvent e path size).thumbnail_extension = e.thumbnail_extension) ∧
    (truthyI e.playback_time = true → (ftpUpdateEvent e path size).playback_time = e.playback_time) :=
  ⟨rfl, rfl, fun _ => rfl, fun _ => rfl, fun _ => rfl, fun _ => rfl⟩

/-- Helper: the whole drop-directory section is a pass evolution. -/
lemma ftp_fold_extendsTo (dir : String) (cams : List Camera) (now : Int) :
    ∀ (files : List FtpFile) (st : List Event) (stats : FtpStats),
      extendsTo st ((files.foldl (processFtpFile dir cams now) (st, stats)).1) := by
  intro files
  induction files with
  | nil => intro st stats; exact extendsTo_refl _
  | cons f rest ih =>
    intro st stats
    rw [List.foldl_cons, processFtpFile_eq]
    by_cases hv : ftpVideoFile f.fname = true
    · rw [if_neg (by simp [hv])]
      cases hfind : find_matching_event_by_filename st f.fname with
      | some i =>
        exact extendsTo_trans
          (extendsTo_updateAt st i _ (fun e => keeps_ftpUpdate _ _ e)) (ih _ _)
      | none =>
        exact extendsTo_trans (extendsTo_append _ _) (ih _ _)
    · rw [if_pos (by simp only [Bool.not_eq_true] at hv; simp [hv])]
      exact ih _ _

/-- Helper: the camera section leaves every record of every successful batch
settled in its final store. -/
lemma camera_phase_settles : ∀ (cams : List (Camera × Except Unit (List CameraEvent)))
    (acc : List Event × Nat × Nat),
    (∀ cf ∈ cams, camBatchParses cf.2) →
    ∀ cf ∈ cams, ∀ recs, cf.2 = Except.ok recs → ∀ r ∈ recs,
      recSettled (cams.foldl processCamera acc).1 cf.1 r := by
  intro cams
  induction cams with
  | nil => intro acc _ cf hcf; cases hcf
  | cons cf0 rest ih =>
    intro acc hparse cf hcf recs hrecs r hr
    rw [List.foldl_cons]
    rcases List.mem_cons.mp hcf with hhead | htail
    · subst hhead
      have hsettle : recSettled (processCamera acc cf).1 cf.1 r := by
        unfold processCamera
        rw [hrecs]
        have hpar : ∀ x ∈ recs, x.triggeredAt ≠ none := by
          have := hparse cf (List.mem_cons_self _ _)
          rw [hrecs] at this
          exact this
        exact batch_settles cf.1 recs (acc.1, []) hpar r hr
      exact recSettled_stable (camera_phase_extendsTo rest _) cf.1 r hsettle
    · exact ih _ (fun x hx => hparse x (List.mem_cons_of_mem cf0 hx)) cf htail recs hrecs r hr

/-- Helper: a settled record's step does nothing. -/
lemma settled_record_noop (cam : Camera) (st news : List Event) (r : CameraEvent)
    (hs : recSettled st cam r) : processCameraRecord cam (st, news) r = (st, news) := by
  rw [processCameraRecord_eq]
  by_cases hex : exactKnown st cam.id r.fileName = true
  · rw [if_pos hex]
  · rw [if_neg (by simpa using hex)]
    rcases hs with hex2 | ⟨i, e, hfind, he, hnoop⟩
    · exact absurd hex2 hex
    · rw [hfind]
      show (updateAt st i fun x => backfillEvent x r, news) = (st, news)
      rw [updateAt_eq_set st i _ e he, backfillNoop_eq e r hnoop,
        set_getElem_self st i e he]

/-- Helper: a batch of settled records does nothing. -/
lemma settled_batch_noop (cam : Camera) : ∀ (recs : List CameraEvent) (st news : List Event),
    (∀ r ∈ recs, recSettled st cam r) →
    recs.foldl (processCameraRecord cam) (st, news) = (st, news) := by
  intro recs
  induction recs with
  | nil => intro st news _; rfl
  | cons r rest ih =>
    intro st news hs
    rw [List.foldl_cons, settled_record_noop cam st news r (hs r (List.mem_cons_self _ _))]
    exact ih st news (fun x hx => hs x (List.mem_cons_of_mem r hx))

/-- Helper: the camera section over a fully settled store changes nothing and
creates nothing. -/
lemma settled_camera_phase : ∀ (cams : List (Camera × Except Unit (List CameraEvent)))
    (s1 : List Event) (a b : Nat),
    (∀ cf ∈ cams, ∀ recs, cf.2 = Except.ok recs → ∀ r ∈ recs, recSettled s1 cf.1 r) →
    (cams.foldl processCamera (s1, a, b)).1 = s1 ∧
    (cams.foldl processCamera (s1, a, b)).2.1 = a := by
  intro cams
  induction cams with
  | nil => intro s1 a b _; exact ⟨rfl, rfl⟩
  | cons cf rest ih =>
    intro s1 a b hs
    rw [List.foldl_cons]
    cases hcf : cf.2 with
    | error e =>
      have hstep : processCamera (s1, a, b) cf = (s1, a, b) := by
        unfold processCamera
        rw [hcf]
      rw [hstep]
      exact ih s1 a b (fun x hx recs hr => hs x (List.mem_cons_of_mem cf hx) recs hr)
    | ok recs =>
      have hstep : processCamera (s1, a, b) cf = (s1, a, b + recs.length) := by
        unfold processCamera
        rw [hcf]
        show ((recs.foldl (processCameraRecord cf.1) (s1, [])).1 ++
            (recs.foldl (processCameraRecord cf.1) (s1, [])).2,
          a + (recs.foldl (processCameraRecord cf.1) (s1, [])).2.length,
          b + recs.length) = (s1, a, b + recs.length)
        rw [settled_batch_noop cf.1 recs s1 [] (hs cf (List.mem_cons_self _ _) recs hcf)]
        simp
      rw [hstep]
      exact ih s1 a (b + recs.length)
        (fun x hx recs2 hr => hs x (List.mem_cons_of_mem cf hx) recs2 hr)

/-- Helper: every video file of the drop listing has a normalized match in
the store the FTP section leaves behind (it either updated a matching row or
created one named after itself). -/
lemma ftp_fold_matches (dir : String) (cams : List Camera) (now : Int) :
    ∀ (files : List FtpFile) (st : List Event) (stats : FtpStats),
      ∀ f ∈ files, ftpVideoFile f.fname = true →
        (find_matching_event_by_filename
          ((files.foldl (processFtpFile dir cams now) (st, stats)).1) f.fname).isSome = true := by
  intro files
  induction files with
  | nil => intro st stats f hf; cases hf
  | cons g rest ih =>
    intro st stats f hf hvid
    rw [List.foldl_cons]
    rcases List.mem_cons.mp hf with hhead | htail
    · subst hhead
      cases hfind : find_matching_event_by_filename st f.fname with
      | some i =>
        rw [processFtpFile_update dir cams now st stats f i hvid hfind]
        have h1 : find_matching_event_by_filename
            (updateAt st i (fun e => ftpUpdateEvent e (dir ++ "/" ++ f.fname) f.size))
            f.fname = some i :=
          find_matching_stable
            (extendsTo_updateAt st i _ (fun e => keeps_ftpUpdate _ _ e)) f.fname i hfind
        rw [find_matching_stable (ftp_fold_extendsTo dir cams now rest _ _) f.fname i h1]
        rfl
      | none =>
        rw [processFtpFile_create dir cams now st stats f hvid hfind]
        have h1 : find_matching_event_by_filename
            (st ++ [mkEventFromFtp f.fname (dir ++ "/" ++ f.fname)
              (attributeCamera cams f.fname) now]) f.fname = some st.length :=
          find_matching_append_none st _ f.fname hfind (by simp [mkEventFromFtp])
        rw [find_matching_stable (ftp_fold_extendsTo dir cams now rest _ _) f.fname _ h1]
        rfl
    · cases hstep : processFtpFile dir cams now (st, stats) g with
      | mk st2 stats2 => exact ih st2 stats2 f htail hvid

/-- Helper: a row whose position no remaining file writes to survives the
FTP section unchanged. -/
lemma ftp_fold_untouched (dir : String) (cams : List Camera) (now : Int) :
    ∀ (files : List FtpFile) (st : List Event) (stats : FtpStats) (j : Nat) (e : Event),
      st[j]? = some e →
      (∀ g ∈ files, ftpVideoFile g.fname = true →
        find_matching_event_by_filename
          ((files.foldl (processFtpFile dir cams now) (st, stats)).1) g.fname ≠ some j) →
      ((files.foldl (processFtpFile dir cams now) (st, stats)).1)[j]? = some e := by
  intro files
  induction files with
  | nil => intro st stats j e he _; exact he
  | cons g rest ih =>
    intro st stats j e he hnot
    rw [List.foldl_cons] at hnot ⊢
    by_cases hv : ftpVideoFile g.fname = true
    · cases hfind : find_matching_event_by_filename st g.fname with
      | some i =>
        rw [processFtpFile_update dir cams now st stats g i hv hfind] at hnot ⊢
        have hij : i ≠ j := by
          intro hij
          subst hij
          apply hnot g (List.mem_cons_self _ _) hv
          have h1 : find_matching_event_by_filename
              (updateAt st i (fun x => ftpUpdateEvent x (dir ++ "/" ++ g.fname) g.size))
              g.fname = some i :=
            find_matching_stable
              (extendsTo_updateAt st i _ (fun x => keeps_ftpUpdate _ _ x)) g.fname i hfind
          exact find_matching_stable (ftp_fold_extendsTo dir cams now rest _ _) g.fname i h1
        apply ih _ _ j e
        · rw [getElem?_updateAt_ne st i j _ hij]
          exact he
        · intro x hx hvx
          exact hnot x (List.mem_cons_of_mem g hx) hvx
      | none =>
        rw [processFtpFile_create dir cams now st stats g hv hfind] at hnot ⊢
        apply ih _ _ j e
        · have hj : j < st.length := (List.getElem?_eq_some_iff.mp he).1
          rw [List.getElem?_append_left hj]
          exact he
        · intro x hx hvx
          exact hnot x (List.mem_cons_of_mem g hx) hvx
    · simp only [Bool.not_eq_true] at hv
      rw [processFtpFile_skip dir cams now st stats g hv] at hnot ⊢
      exact ih _ _ j e he (fun x hx hvx => hnot x (List.mem_cons_of_mem g hx) hvx)

/-- Helper: membership in the writer list of a row. -/
lemma mem_ftpMatchers (S : List Event) (j : Nat) (files : List FtpFile) (g : FtpFile) :
    g ∈ ftpMatchers S j files ↔
      g ∈ files ∧ ftpVideoFile g.fname = true ∧
        find_matching_event_by_filename S g.fname = some j := by
  unfold ftpMatchers
  rw [List.mem_filter]
  constructor
  · intro ⟨h1, h2⟩
    rw [Bool.and_eq_true] at h2
    exact ⟨h1, h2.1, by simpa using h2.2⟩
  · intro ⟨h1, h2, h3⟩
    exact ⟨h1, by rw [Bool.and_eq_true]; exact ⟨h2, by simp [h3]⟩⟩

/-- Helper: cons equation of the writer list when the head file writes to the
row. -/
lemma ftpMatchers_cons_pos (S : List Event) (j : Nat) (g : FtpFile) (rest : List FtpFile)
    (h : (ftpVideoFile g.fname &&
      (find_matching_event_by_filename S g.fname == some j)) = true) :
    ftpMatchers S j (g :: rest) = g :: ftpMatchers S j rest := by
  unfold ftpMatchers
  exact List.filter_cons_of_pos h

/-- Helper: cons equation of the writer list when the head file does not
write to the row. -/
lemma ftpMatchers_cons_neg (S : List Event) (j : Nat) (g : FtpFile) (rest : List FtpFile)
    (h : (ftpVideoFile g.fname &&
      (find_matching_event_by_filename S g.fname == some j)) = false) :
    ftpMatchers S j (g :: rest) = ftpMatchers S j rest := by
  unfold ftpMatchers
  exact List.filter_cons_of_neg (by simp [h])

/-- Helper: after the FTP section, a row some file wrote to carries the local
path of its last writer and the downloaded flag. -/
lemma ftp_fold_facts (dir : String) (cams : List Camera) (now : Int) :
    ∀ (files : List FtpFile) (st : List Event) (stats : FtpStats) (j : Nat)
      (e2 : Event) (fl : FtpFile),
      ((files.foldl (processFtpFile dir cams now) (st, stats)).1)[j]? = some e2 →
      (ftpMatchers ((files.foldl (processFtpFile dir cams now) (st, stats)).1) j
        files).getLast? = some fl →
      e2.file_path = some (dir ++ "/" ++ fl.fname) ∧ e2.is_downloaded = true := by
  intro files
  induction files with
  | nil =>
    intro st stats j e2 fl _ hlast
    cases hlast
  | cons g rest ih =>
    intro st stats j e2 fl he2 hlast
    rw [List.foldl_cons] at he2 hlast
    by_cases hv : ftpVideoFile g.fname = true
    · cases hfind : find_matching_event_by_filename st g.fname with
      | some i =>
        rw [processFtpFile_update dir cams now st stats g i hv hfind] at he2 hlast
        have hfS : find_matching_event_by_filename
            ((rest.foldl (processFtpFile dir cams now)
              (updateAt st i (fun x => ftpUpdateEvent x (dir ++ "/" ++ g.fname) g.size),
                { stats with processed := stats.processed + 1, updated := stats.updated + 1 })).1)
            g.fname = some i := by
          apply find_matching_stable (ftp_fold_extendsTo dir cams now rest _ _)
          exact find_matching_stable
            (extendsTo_updateAt st i _ (fun x => keeps_ftpUpdate _ _ x)) g.fname i hfind
        by_cases hij : i = j
        · subst hij
          rw [ftpMatchers_cons_pos _ _ _ _
            (by rw [Bool.and_eq_true]; exact ⟨hv, by simp [hfS]⟩)] at hlast
          cases hM : ftpMatchers ((rest.foldl (processFtpFile dir cams now)
              (updateAt st i (fun x => ftpUpdateEvent x (dir ++ "/" ++ g.fname) g.size),
                { stats with processed := stats.processed + 1, updated := stats.updated + 1 })).1)
              i rest with
          | nil =>
            rw [hM, List.getLast?_singleton] at hlast
            cases hlast
            rcases (find_matching_some_iff st g.fname i).mp hfind with ⟨⟨e0, he0, _⟩, _⟩
            have hT : (updateAt st i
                (fun x => ftpUpdateEvent x (dir ++ "/" ++ g.fname) g.size))[i]? =
                some (ftpUpdateEvent e0 (dir ++ "/" ++ g.fname) g.size) :=
              getElem?_updateAt_self st i _ e0 he0
            have hS := ftp_fold_untouched dir cams now rest _
              { stats with processed := stats.processed + 1, updated := stats.updated + 1 }
              i _ hT ?_
            · rw [hS] at he2
              cases he2
              exact ⟨rfl, rfl⟩
            · intro x hx hvx hfx
              have hmem : x ∈ ftpMatchers ((rest.foldl (processFtpFile dir cams now)
                  (updateAt st i (fun y => ftpUpdateEvent y (dir ++ "/" ++ g.fname) g.size),
                    { stats with processed := stats.processed + 1, updated := stats.updated + 1 })).1)
                  i rest := by
                rw [mem_ftpMatchers]
                exact ⟨hx, hvx, hfx⟩
              rw [hM] at hmem
              cases hmem
          | cons m ms =>
            rw [hM, List.getLast?_cons_cons] at hlast
            rw [← hM] at hlast
            exact ih _ _ i e2 fl he2 hlast
        · rw [ftpMatchers_cons_neg _ _ _ _ (by rw [hfS]; simp [hij])] at hlast
          exact ih _ _ j e2 fl he2 hlast
      | none =>
        rw [processFtpFile_create dir cams now st stats g hv hfind] at he2 hlast
        have hfT : find_matching_event_by_filename
            (st ++ [mkEventFromFtp g.fname (dir ++ "/" ++ g.fname)
              (attributeCamera cams g.fname) now]) g.fname = some st.length :=
          find_matching_append_none st _ g.fname hfind (by simp [mkEventFromFtp])
        have hfS : find_matching_event_by_filename
            ((rest.foldl (processFtpFile dir cams now)
              (st ++ [mkEventFromFtp g.fname (dir ++ "/" ++ g.fname)
                (attributeCamera cams g.fname) now],
                { stats with processed := stats.processed + 1, created := stats.created + 1 })).1)
            g.fname = some st.length :=
          find_matching_stable (ftp_fold_extendsTo dir cams now rest _ _) g.fname _ hfT
        by_cases hj : st.length = j
        · subst hj
          rw [ftpMatchers_cons_pos _ _ _ _
            (by rw [Bool.and_eq_true]; exact ⟨hv, by simp [hfS]⟩)] at hlast
          cases hM : ftpMatchers ((rest.foldl (processFtpFile dir cams now)
              (st ++ [mkEventFromFtp g.fname (dir ++ "/" ++ g.fname)
                (attributeCamera cams g.fname) now],
                { stats with processed := stats.processed + 1, created := stats.created + 1 })).1)
              st.length rest with
          | nil =>
            rw [hM, List.getLast?_singleton] at hlast
            cases hlast
            have hT : (st ++ [mkEventFromFtp g.fname (dir ++ "/" ++ g.fname)
                (attributeCamera cams g.fname) now])[st.length]? =
                some (mkEventFromFtp g.fname (dir ++ "/" ++ g.fname)
                  (attributeCamera cams g.fname) now) :=
              List.getElem?_concat_length st _
            have hS := ftp_fold_untouched dir cams now rest _
              { stats with processed := stats.processed + 1, created := stats.created + 1 }
              st.length _ hT ?_
            · rw [hS] at he2
              cases he2
              exact ⟨rfl, rfl⟩
            · intro x hx hvx hfx
              have hmem : x ∈ ftpMatchers ((rest.foldl (processFtpFile dir cams now)
                  (st ++ [mkEventFromFtp g.fname (dir ++ "/" ++ g.fname)
                    (attributeCamera cams g.fname) now],
                    { stats with processed := stats.processed + 1, created := stats.created + 1 })).1)
                  st.length rest := by
                rw [mem_ftpMatchers]
                exact ⟨hx, hvx, hfx⟩
              rw [hM] at hmem
              cases hmem
          | cons m ms =>
            rw [hM, List.getLast?_cons_cons] at hlast
            rw [← hM] at hlast
            exact ih _ _ st.length e2 fl he2 hlast
        · rw [ftpMatchers_cons_neg _ _ _ _ (by rw [hfS]; simp [hj])] at hlast
          exact ih _ _ j e2 fl he2 hlast
    · simp only [Bool.not_eq_true] at hv
      rw [processFtpFile_skip dir cams now st stats g hv] at he2 hlast
      rw [ftpMatchers_cons_neg _ _ _ _ (by rw [hv]; rfl)] at hlast
      exact ih _ _ j e2 fl he2 hlast

/-- Helper: over a store in which every video file already has a match, the
FTP section creates nothing and acts pointwise: each row ends up as its
start value iteratively updated by exactly its writers. -/
lemma ftp_fold_pointwise (dir : String) (cams : List Camera) (now : Int)
    (s1 : List Event) :
    ∀ (files : List FtpFile) (U : List Event) (stats : FtpStats),
      U.length = s1.length →
      (∀ (k : Nat) (a b : Event), U[k]? = some a → s1[k]? = some b →
        a.filename = b.filename) →
      (∀ f ∈ files, ftpVideoFile f.fname = true →
        ∃ i, find_matching_event_by_filename s1 f.fname = some i) →
      ((files.foldl (processFtpFile dir cams now) (U, stats)).1.length = s1.length) ∧
      (∀ (j : Nat) (u : Event), U[j]? = some u →
        ((files.foldl (processFtpFile dir cams now) (U, stats)).1)[j]? =
          some (ustar dir u (ftpMatchers s1 j files))) := by
  intro files
  induction files with
  | nil =>
    intro U stats hlen _ _
    exact ⟨hlen, fun j u hu => by
      show U[j]? = some (ustar dir u (ftpMatchers s1 j []))
      unfold ftpMatchers
      rw [List.filter_nil]
      exact hu⟩
  | cons f rest ih =>
    intro U stats hlen hfn hmatch
    rw [List.foldl_cons]
    by_cases hv : ftpVideoFile f.fname = true
    · rcases hmatch f (List.mem_cons_self _ _) hv with ⟨i, hi⟩
      have hiU : find_matching_event_by_filename U f.fname = some i := by
        rw [find_matching_congr U s1 hlen (fun k a b ha hb => hfn k a b ha hb) f.fname]
        exact hi
      rw [processFtpFile_update dir cams now U stats f i hv hiU]
      have hlen2 : (updateAt U i
          (fun e => ftpUpdateEvent e (dir ++ "/" ++ f.fname) f.size)).length = s1.length := by
        rw [length_updateAt]; exact hlen
      have hfn2 : ∀ (k : Nat) (a b : Event),
          (updateAt U i (fun e => ftpUpdateEvent e (dir ++ "/" ++ f.fname) f.size))[k]? = some a →
          s1[k]? = some b → a.filename = b.filename := by
        intro k a b ha hb
        by_cases hik : i = k
        · subst hik
          cases hU : U[i]? with
          | none =>
            unfold updateAt at ha
            rw [List.get?_eq_getElem?, hU] at ha
            rw [hU] at ha
            cases ha
          | some u0 =>
            rw [getElem?_updateAt_self U i _ u0 hU] at ha
            cases ha
            exact hfn i u0 b hU hb
        · rw [getElem?_updateAt_ne U i k _ hik] at ha
          exact hfn k a b ha hb
      have hmatch2 : ∀ x ∈ rest, ftpVideoFile x.fname = true →
          ∃ i2, find_matching_event_by_filename s1 x.fname = some i2 :=
        fun x hx hvx => hmatch x (List.mem_cons_of_mem f hx) hvx
      refine ⟨(ih _ { stats with processed := stats.processed + 1, updated := stats.updated + 1 } hlen2 hfn2 hmatch2).1, ?_⟩
      intro j u hu
      by_cases hij : i = j
      · subst hij
        rw [ftpMatchers_cons_pos _ _ _ _ (by rw [Bool.and_eq_true]; exact ⟨hv, by simp [hi]⟩)]
        have hstep : (updateAt U i
            (fun e => ftpUpdateEvent e (dir ++ "/" ++ f.fname) f.size))[i]? =
            some (ftpUpdateEvent u (dir ++ "/" ++ f.fname) f.size) :=
          getElem?_updateAt_self U i _ u hu
        have hres := (ih _ { stats with processed := stats.processed + 1, updated := stats.updated + 1 } hlen2 hfn2 hmatch2).2 i _ hstep
        rw [hres]
        rfl
      · rw [ftpMatchers_cons_neg _ _ _ _ (by rw [hi]; simp [hij])]
        have hstep : (updateAt U i
            (fun e => ftpUpdateEvent e (dir ++ "/" ++ f.fname) f.size))[j]? = some u := by
          rw [getElem?_updateAt_ne U i j _ hij]
          exact hu
        exact (ih _ { stats with processed := stats.processed + 1, updated := stats.updated + 1 } hlen2 hfn2 hmatch2).2 j u hstep
    · simp only [Bool.not_eq_true] at hv
      rw [processFtpFile_skip dir cams now U stats f hv]
      have hmatch2 : ∀ x ∈ rest, ftpVideoFile x.fname = true →
          ∃ i2, find_matching_event_by_filename s1 x.fname = some i2 :=
        fun x hx hvx => hmatch x (List.mem_cons_of_mem f hx) hvx
      refine ⟨(ih U stats hlen hfn hmatch2).1, ?_⟩
      intro j u hu
      rw [ftpMatchers_cons_neg _ _ _ _ (by rw [hv]; rfl)]
      exact (ih U stats hlen hfn hmatch2).2 j u hu

/-- Helper: iterated updates amount to the last writer's path, the downloaded
flag and some recorded size, everything else untouched. -/
lemma ustar_fields (dir : String) : ∀ (fs : List FtpFile) (e : Event) (fl : FtpFile),
    fs.getLast? = some fl →
    ∃ sz, ustar dir e fs =
      { e with file_path := some (dir ++ "/" ++ fl.fname), is_downloaded := true,
               file_size := sz } := by
  intro fs
  induction fs with
  | nil => intro e fl h; cases h
  | cons f rest ih =>
    intro e fl h
    cases rest with
    | nil =>
      rw [List.getLast?_singleton] at h
      cases h
      refine ⟨match f.size with | some n => some n | none => e.file_size, ?_⟩
      rfl
    | cons g t =>
      rw [List.getLast?_cons_cons] at h
      rcases ih (ftpUpdateEvent e (dir ++ "/" ++ f.fname) f.size) fl h with ⟨sz, hsz⟩
      refine ⟨sz, ?_⟩
      show ustar dir (ftpUpdateEvent e (dir ++ "/" ++ f.fname) f.size) (g :: t) = _
      rw [hsz]
      rfl

/-- C1 counterexample: a second pass with identical inputs is not a no-op on
the store.  First scenario: a drop-directory file creates a row on the first
pass (creation records no `file_size`), and the second pass, although it
reports `new_events = 0`, writes `file_size = 42` into it.  Second scenario:
a camera record with an unparseable timestamp matches nothing on the first
pass, but on the second pass it matches the row the drop directory created
and backfills its `video_extension`. -/
theorem sync_idempotence_counterexample :
    (runSync inpFtpOnly []).map (fun p =>
      (runSync inpFtpOnly p.1).map (fun q =>
        (decide (q.1 = p.1), q.2.new_events,
         p.1.map Event.file_size, q.1.map Event.file_size))) =
      Except.ok (Except.ok (false, 0, [none], [some 42])) ∧
    (runSync inpBadTs []).map (fun p =>
      (runSync inpBadTs p.1).map (fun q =>
        (decide (q.1 = p.1), p.1.map Event.video_extension,
         q.1.map Event.video_extension))) =
      Except.ok (Except.ok (false, [none], [some ".mp4"])) := by
  exact ⟨rfl, rfl⟩

/-- C1 (amended): running the pass twice with identical inputs — the same
camera batches and the same drop-directory listing — yields `new_events = 0`
on the second run; and provided every camera-reported timestamp parses, the
second run leaves every Event unchanged except possibly its `file_size`
(a row created from a drop-directory file on the first run lacks a recorded
size and receives one on the second; without the timestamp proviso the
second run can also backfill descriptive fields, as the counterexample
shows). -/
theorem sync_idempotent_up_to_size (inp : SyncInput) (store : List Event)
    (hparse : ∀ cf ∈ inp.cameras, camBatchParses cf.2) :
    ∀ st1 sm1, runSync inp store = Except.ok (st1, sm1) →
      ∃ st2 sm2, runSync inp st1 = Except.ok (st2, sm2) ∧
        sm2.new_events = 0 ∧ st2.map clearSize = st1.map clearSize := by
  intro st1 sm1 h1
  cases hemp : inp.cameras.isEmpty with
  | true =>
    unfold runSync at h1
    rw [hemp] at h1
    cases h1
  | false =>
    unfold runSync at h1
    rw [hemp] at h1
    simp only [Bool.false_eq_true, if_false] at h1
    have hparse2 : ∀ cf ∈ inp.cameras, ∀ recs, cf.2 = Except.ok recs →
        ∀ r ∈ recs, r.triggeredAt ≠ none := by
      intro cf hcf recs hrecs r hr
      have := hparse cf hcf
      rw [hrecs] at this
      exact this r hr
    have hsetmid : ∀ cf ∈ inp.cameras, ∀ recs, cf.2 = Except.ok recs → ∀ r ∈ recs,
        recSettled (inp.cameras.foldl processCamera (store, 0, 0)).1 cf.1 r := by
      intro cf hcf recs hrecs r hr
      exact camera_phase_settles inp.cameras (store, 0, 0)
        (fun x hx => hparse x hx) cf hcf recs hrecs r hr
    cases hftp : inp.ftp with
    | none =>
      rw [hftp] at h1
      simp only [Except.ok.injEq, Prod.mk.injEq] at h1
      obtain ⟨hst, hsm⟩ := h1
      have hset1 : ∀ cf ∈ inp.cameras, ∀ recs, cf.2 = Except.ok recs → ∀ r ∈ recs,
          recSettled st1 cf.1 r := by
        rw [← hst]
        exact hsetmid
      have hcam2 := settled_camera_phase inp.cameras st1 0 0 hset1
      refine ⟨st1,
        { message := "Events synced from camera and FTP directory"
          new_events := (inp.cameras.foldl processCamera (st1, 0, 0)).2.1
          total_events := (inp.cameras.foldl processCamera (st1, 0, 0)).2.2
          cameras_processed := inp.cameras.length }, ?_, ?_, rfl⟩
      · unfold runSync
        rw [hemp]
        simp only [Bool.false_eq_true, if_false]
        rw [hftp]
        rw [hcam2.1]
      · show (inp.cameras.foldl processCamera (st1, 0, 0)).2.1 = 0
        exact hcam2.2
    | some files =>
      rw [hftp] at h1
      simp only [Except.ok.injEq, Prod.mk.injEq] at h1
      obtain ⟨hst, hsm⟩ := h1
      have hset1 : ∀ cf ∈ inp.cameras, ∀ recs, cf.2 = Except.ok recs → ∀ r ∈ recs,
          recSettled st1 cf.1 r := by
        intro cf hcf recs hrecs r hr
        rw [← hst]
        exact recSettled_stable
          (ftp_fold_extendsTo inp.ftpDir (inp.cameras.map Prod.fst) inp.now files _ _)
          cf.1 r (hsetmid cf hcf recs hrecs r hr)
      have hcam2 := settled_camera_phase inp.cameras st1 0 0 hset1
      have hmatch : ∀ f ∈ files, ftpVideoFile f.fname = true →
          ∃ i, find_matching_event_by_filename st1 f.fname = some i := by
        intro f hf hvf
        have := ftp_fold_matches inp.ftpDir (inp.cameras.map Prod.fst) inp.now files
          (inp.cameras.foldl processCamera (store, 0, 0)).1 ⟨0, 0, 0⟩ f hf hvf
        rw [hst] at this
        exact Option.isSome_iff_exists.mp this
      have hpt := ftp_fold_pointwise inp.ftpDir (inp.cameras.map Prod.fst) inp.now st1
        files st1 ⟨0, 0, 0⟩ rfl
        (fun k a b ha hb => by rw [ha] at hb; cases hb; rfl) hmatch
      refine ⟨(files.foldl (processFtpFile inp.ftpDir (inp.cameras.map Prod.fst) inp.now)
          (st1, ⟨0, 0, 0⟩)).1,
        { message := "Events synced from camera and FTP directory"
          new_events := (inp.cameras.foldl processCamera (st1, 0, 0)).2.1
          total_events := (inp.cameras.foldl processCamera (st1, 0, 0)).2.2
          cameras_processed := inp.cameras.length }, ?_, ?_, ?_⟩
      · unfold runSync
        rw [hemp]
        simp only [Bool.false_eq_true, if_false]
        rw [hftp, hcam2.1]
      · show (inp.cameras.foldl processCamera (st1, 0, 0)).2.1 = 0
        exact hcam2.2
      · apply List.ext_getElem?
        intro n
        rw [List.getElem?_map, List.getElem?_map]
        cases hn : st1[n]? with
        | none =>
          have hlen : st1.length ≤ n := by
            rw [← List.getElem?_eq_none_iff]
            exact hn
          have : (files.foldl (processFtpFile inp.ftpDir (inp.cameras.map Prod.fst) inp.now)
              (st1, ⟨0, 0, 0⟩)).1[n]? = none := by
            rw [List.getElem?_eq_none_iff, hpt.1]
            exact hlen
          rw [this]
        | some u =>
          rw [hpt.2 n u hn]
          cases hMs : ftpMatchers st1 n files with
          | nil =>
            show some (clearSize u) = some (clearSize u)
            rfl
          | cons m ms =>
            have hlastS : ((m :: ms).getLast?).isSome = true :=
              List.getLast?_isSome.mpr (by simp)
            rcases Option.isSome_iff_exists.mp hlastS with ⟨fl, hfl⟩
            have hfacts := ftp_fold_facts inp.ftpDir (inp.cameras.map Prod.fst) inp.now
              files (inp.cameras.foldl processCamera (store, 0, 0)).1 ⟨0, 0, 0⟩ n u fl
              (by rw [hst]; exact hn)
              (by rw [hst, hMs]; exact hfl)
            rcases ustar_fields inp.ftpDir (m :: ms) u fl hfl with ⟨sz, hsz⟩
            rw [hsz]
            show some { u with
              file_path := some (inp.ftpDir ++ "/" ++ fl.fname)
              is_downloaded := true
              file_size := none } = some (clearSize u)
            rw [← hfacts.1, ← hfacts.2]
            rfl

theorem sync_idempotent_up_to_size_witness :
    ∃ st2 sm2, runSync inpClip [eventClipMerged] = Except.ok (st2, sm2) ∧
      sm2.new_events = 0 ∧ st2.map clearSize = [eventClipMerged].map clearSize :=
  sync_idempotent_up_to_size inpClip [] (by decide) [eventClipMerged]
    { message := "Events synced from camera and FTP directory", new_events := 1, total_events := 1, cameras_processed := 1 }
    (by rfl)
